import Mathlib

/-!
Shallow embedding of `source/gui/configwindow.py` (the DXF2GCODE configuration
window module) and proofs about its specification claims.

The embedding translates the Python code function by function:

* Python strings are Lean `String`s; the handful of `str` methods the module
  uses (`strip`, `find`, `split`, `replace`, `startswith`, slicing, the `in`
  substring test) are given explicit executable definitions below, operating
  on the underlying character lists.
* `try: x = int(e) / float(e)  except ValueError: pass` is embedded as a match
  on `pyInt? e : Option Int` / `pyFloat? e : Option Rat`: a caught parse
  failure is `none` and leaves the assigned slot unchanged.  Python floats are
  modelled as exact rationals; every float literal appearing in the claims is
  exactly representable.
* `ConfigObj` dictionaries (ordered mappings) are modelled as association
  lists in insertion order; `Section.keys()` of the external ConfigObj module
  (not part of the sources under verification) is modelled as the ordered key
  list, following the specification's wording.
-/

/-! ## Python string primitives -/

/-- The whitespace set stripped by Python `str.strip()` with no arguments:
space, tab, newline, carriage return, vertical tab, form feed. -/
def pyIsSpace (c : Char) : Bool :=
  c == ' ' || c == '\t' || c == '\n' || c == '\r' || c == Char.ofNat 11 || c == Char.ofNat 12

/-- Drop the longest suffix of characters satisfying `p`. -/
def dropEndWhile (p : Char → Bool) (l : List Char) : List Char :=
  (l.reverse.dropWhile p).reverse

/-- Drop characters satisfying `p` from both ends (Python strip semantics). -/
def stripBy (p : Char → Bool) (l : List Char) : List Char :=
  dropEndWhile p (l.dropWhile p)

/-- Python `s.strip()`: remove whitespace from both ends. -/
def pyStripWs (s : String) : String := ⟨stripBy pyIsSpace s.data⟩

/-- Python `s.strip(chars)`: remove any of the given characters from both ends. -/
def pyStripChars (cs : List Char) (s : String) : String :=
  ⟨stripBy (fun c => cs.contains c) s.data⟩

/-- Lowest character index at which `needle` occurs in the list, if any
(Python `str.find`, with `none` in place of `-1`). -/
def subFindAux (needle : List Char) : List Char → Option Nat
  | [] => if needle = [] then some 0 else none
  | c :: t => if needle.isPrefixOf (c :: t) then some 0 else (subFindAux needle t).map (· + 1)

/-- Python `s.find(sub)` (result `none` in place of `-1`). -/
def pyFind (s sub : String) : Option Nat := subFindAux sub.data s.data

/-- Python `s.find(sub, start)`: search starting at character index `start`. -/
def pyFindFrom (s sub : String) (start : Nat) : Option Nat :=
  (subFindAux sub.data (s.data.drop start)).map (· + start)

/-- Python substring test `sub in s`. -/
def strContains (s sub : String) : Bool := (pyFind s sub).isSome

/-- Python slice `s[a:b]` with character indices. -/
def pySlice (s : String) (a b : Nat) : String := ⟨(s.data.drop a).take (b - a)⟩

/-- Split a character list at every occurrence of `sep`
(Python `str.split(sep)` semantics for a one-character separator:
the empty string splits to one empty field). -/
def splitCharList (sep : Char) : List Char → List (List Char)
  | [] => [[]]
  | c :: t =>
    match splitCharList sep t with
    | [] => [[]]
    | h :: r => if c == sep then [] :: h :: r else (c :: h) :: r

/-- Python `s.split(",")`. -/
def pySplitComma (s : String) : List String :=
  (splitCharList ',' s.data).map (fun l => (⟨l⟩ : String))

/-- Python `s.startswith(c)` for a one-character prefix. -/
def pyStartsWith (s : String) (c : Char) : Bool :=
  match s.data with
  | [] => false
  | d :: _ => d == c

/-- Left-to-right, non-overlapping replacement on character lists, by fuel
recursion (the fuel is an upper bound on the input length, so it is never
exhausted; structural recursion keeps the definition kernel-executable). -/
def listReplaceFuel (old new : List Char) : Nat → List Char → List Char
  | 0, l => l
  | _ + 1, [] => []
  | fuel + 1, c :: t =>
    if old.isPrefixOf (c :: t) ∧ old ≠ [] then
      new ++ listReplaceFuel old new fuel (t.drop (old.length - 1))
    else
      c :: listReplaceFuel old new fuel t

/-- Python `s.replace(old, new)`: left-to-right, non-overlapping replacement
(the module only replaces the non-empty patterns `"min"` and `"max"`, so the
`old = ""` behaviour is irrelevant and modelled as the identity). -/
def listReplace (l old new : List Char) : List Char :=
  listReplaceFuel old new l.length l

/-- Python `s.replace(old, new)`. -/
def pyReplace (s old new : String) : String := ⟨listReplace s.data old.data new.data⟩

/-! ## Python numeric parsing -/

/-- Numeric value of a digit list (most significant first). -/
def digitsVal (l : List Char) : Nat := l.foldl (fun a c => a * 10 + (c.toNat - 48)) 0

/-- Parse a non-empty all-digit list. -/
def parseDigits? (l : List Char) : Option Nat :=
  if l ≠ [] ∧ l.all (·.isDigit) then some (digitsVal l) else none

/-- Python `int(s)`: surrounding whitespace, an optional sign, then a
non-empty digit string (the module feeds it short stripped fragments such as
`"-7"` or `"max=9"`; exotic forms like underscores or base prefixes never
reach it and are not modelled). -/
def pyInt? (s : String) : Option Int :=
  let l := stripBy pyIsSpace s.data
  match l with
  | '-' :: rest => (parseDigits? rest).map (fun n => -(n : Int))
  | '+' :: rest => (parseDigits? rest).map (fun n => (n : Int))
  | _ => (parseDigits? l).map (fun n => (n : Int))

/-- Python `float(s)` on plain decimal literals, as exact rationals:
surrounding whitespace, optional sign, then digits with an optional decimal
point (at least one digit overall).  The configuration specs scanned by this
module use only such literals. -/
def pyFloat? (s : String) : Option Rat :=
  let l := stripBy pyIsSpace s.data
  let sgnBody : Bool × List Char :=
    match l with
    | '-' :: rest => (true, rest)
    | '+' :: rest => (false, rest)
    | _ => (false, l)
  let signed : Int → Int := fun n => if sgnBody.1 then -n else n
  match splitCharList '.' sgnBody.2 with
  | [ip] =>
    if ip ≠ [] ∧ ip.all (·.isDigit) then some (mkRat (signed (digitsVal ip)) 1) else none
  | [ip, fp] =>
    if (ip ≠ [] ∨ fp ≠ []) ∧ ip.all (·.isDigit) ∧ fp.all (·.isDigit) then
      some (mkRat (signed (digitsVal ip * 10 ^ fp.length + digitsVal fp)) (10 ^ fp.length))
    else none
  | _ => none

/-- A Python number held by the scanner's `minimum` / `maximum` variables:
the integer/string branches assign `int` results, the float branch `float`
results. -/
inductive PyNum where
  | int (n : Int)
  | float (q : Rat)
deriving DecidableEq, Repr

/-! ## The Spec Scanner (`ConfigWindow.configspecParser`, lines 307-471) -/

/-- A ConfigObj configspec entry as received by `configspecParser`: either a
raw specification string, or a nested section (ordered mapping) for tables.
A section also carries ConfigObj's per-key `comments` mapping. -/
inductive Configspec where
  | str (s : String)
  | dict (entries : List (String × Configspec)) (comments : List (String × List String))

/-- The record returned by `configspecParser` (its four result fields). -/
structure SpecResult where
  minimum : Option PyNum
  maximum : Option PyNum
  string_list : List String
  comment : String
deriving DecidableEq, Repr

/-- `ConfigWindow.configspecParserExctractSections` (lines 456-471): locate
`attribute_name ++ "("`, then the next `")"`, and comma-split the text in
between; any failure yields the empty list. -/
def configspecParserExctractSections (attribute_name : String) (s : String) : List String :=
  match pyFind s (attribute_name ++ "(") with
  | none => []
  | some p =>
    let pos_init := p + (attribute_name ++ "(").length
    match pyFindFrom s ")" pos_init with
    | none => []
    | some pos_end =>
      if pos_init < pos_end then pySplitComma (pySlice s pos_init pos_end) else []

/-- The `option` while-loop (lines 339-358): each element is stripped in
place; elements starting with a double (resp. single) quote have that quote
character stripped from both ends and are kept; all others are deleted from
the list.  The in-place index loop with deletion is equivalent to this
left-to-right recursion. -/
def optionQuoteFilter : List String → List String
  | [] => []
  | x :: xs =>
    let e := pyStripWs x
    if pyStartsWith e '"' then pyStripChars ['"'] e :: optionQuoteFilter xs
    else if pyStartsWith e '\'' then pyStripChars ['\''] e :: optionQuoteFilter xs
    else optionQuoteFilter xs

/-- The fragment tried by the `min` keyword fallback (lines 386-387 and
424-425): drop every occurrence of `"min"`, then strip spaces and equal
signs from both ends. -/
def minKeywordCandidate (element : String) : String :=
  pyStripChars [' ', '='] (pyReplace element "min" "")

/-- The fragment tried by the `max` keyword fallback (lines 393-394 and
431-432). -/
def maxKeywordCandidate (element : String) : String :=
  pyStripChars [' ', '='] (pyReplace element "max" "")

/-- The `integer` / `string` while-loop (lines 365-398).  Empty elements are
deleted from the list; each remaining element is stripped into a local
variable, tried positionally as `int` for the first unset of
minimum-then-maximum, and then the `min` / `max` keyword fallbacks run on the
(locally mutated) element.  Returns the surviving list and the two slots. -/
def intStrLoop : List String → Option PyNum → Option PyNum →
    List String × Option PyNum × Option PyNum
  | [], mn, mx => ([], mn, mx)
  | x :: xs, mn, mx =>
    if x = "" then intStrLoop xs mn mx
    else
      let element := pyStripWs x
      let mn1 : Option PyNum :=
        match mn with
        | none => (pyInt? element).map PyNum.int
        | some m => some m
      let mx1 : Option PyNum :=
        match mn with
        | none => mx
        | some _ =>
          match mx with
          | none => (pyInt? element).map PyNum.int
          | some m2 => some m2
      let step2 : Option PyNum × String :=
        if mn1.isNone && strContains element "min" then
          let e2 := minKeywordCandidate element
          ((pyInt? e2).map PyNum.int, e2)
        else (mn1, element)
      let mx2 : Option PyNum :=
        if mx1.isNone && strContains step2.2 "max" then
          (pyInt? (maxKeywordCandidate step2.2)).map PyNum.int
        else mx1
      let rec3 := intStrLoop xs step2.1 mx2
      (x :: rec3.1, rec3.2)

/-- The `float` while-loop (lines 403-436): identical to `intStrLoop` but
parsing with float semantics. -/
def floatLoop : List String → Option PyNum → Option PyNum →
    List String × Option PyNum × Option PyNum
  | [], mn, mx => ([], mn, mx)
  | x :: xs, mn, mx =>
    if x = "" then floatLoop xs mn mx
    else
      let element := pyStripWs x
      let mn1 : Option PyNum :=
        match mn with
        | none => (pyFloat? element).map PyNum.float
        | some m => some m
      let mx1 : Option PyNum :=
        match mn with
        | none => mx
        | some _ =>
          match mx with
          | none => (pyFloat? element).map PyNum.float
          | some m2 => some m2
      let step2 : Option PyNum × String :=
        if mn1.isNone && strContains element "min" then
          let e2 := minKeywordCandidate element
          ((pyFloat? e2).map PyNum.float, e2)
        else (mn1, element)
      let mx2 : Option PyNum :=
        if mx1.isNone && strContains step2.2 "max" then
          (pyFloat? (maxKeywordCandidate step2.2)).map PyNum.float
        else mx1
      let rec3 := floatLoop xs step2.1 mx2
      (x :: rec3.1, rec3.2)

/-- Comment assembly (lines 438-445): concatenate the whitespace-stripped
fragments, strip spaces and hash marks from both ends, and turn the remaining
hash marks into newlines. -/
def assembleComments (comments : List String) : String :=
  if comments.length > 0 then
    let cs := comments.foldl (fun acc c => acc ++ pyStripWs c) ""
    pyReplace (pyStripChars [' ', '#'] cs) "#" "\n"
  else ""

/-- `ConfigWindow.configspecParser` (lines 307-454).  Dictionary specs take
the table branch (`__many__` key lookup); string specs run the `option`
filter, then the `integer` / `string` loop, then the `float` loop, each
branch firing only when the previous one produced an empty list. -/
def configspecParser (configspec : Configspec) (comments : List String) : SpecResult :=
  match configspec with
  | .dict entries _ =>
    let string_list :=
      match entries.lookup "__many__" with
      | some (.dict inner _) => "" :: inner.map Prod.fst
      | _ => []
    { minimum := none, maximum := none, string_list := string_list,
      comment := assembleComments comments }
  | .str s =>
    let sl0 := optionQuoteFilter (configspecParserExctractSections "option" s)
    let st1 : List String × Option PyNum × Option PyNum :=
      if sl0.length ≤ 0 then
        let l0 := configspecParserExctractSections "integer" s
        let l1 := if l0.length ≤ 0 then configspecParserExctractSections "string" s else l0
        intStrLoop l1 none none
      else (sl0, none, none)
    let st2 : List String × Option PyNum × Option PyNum :=
      if st1.1.length ≤ 0 then floatLoop (configspecParserExctractSections "float" s) st1.2.1 st1.2.2
      else st1
    { minimum := st2.2.1, maximum := st2.2.2, string_list := st2.1,
      comment := assembleComments comments }

/-! ## Configuration values and the window-definition tree -/

/-- A value stored in the ConfigObj configuration document: scalars, lists,
or nested ordered sections (association lists in insertion order).  Python
distinguishes `True` from `1` in type and in the written representation, so
booleans are a separate constructor. -/
inductive Value where
  | int (n : Int)
  | float (q : Rat)
  | bool (b : Bool)
  | str (s : String)
  | list (elems : List Value)
  | dict (entries : List (String × Value))

mutual

/-- Structural equality test on values (used only for Python list
membership in `pyInV`; like-shaped values compare componentwise). -/
def Value.beq : Value → Value → Bool
  | .int a, .int b => a == b
  | .float a, .float b => a == b
  | .bool a, .bool b => a == b
  | .str a, .str b => a == b
  | .list a, .list b => Value.beqList a b
  | .dict a, .dict b => Value.beqDict a b
  | _, _ => false

/-- Componentwise equality of value lists. -/
def Value.beqList : List Value → List Value → Bool
  | [], [] => true
  | a :: as, b :: bs => Value.beq a b && Value.beqList as bs
  | _, _ => false

/-- Componentwise equality of section entry lists. -/
def Value.beqDict : List (String × Value) → List (String × Value) → Bool
  | [], [] => true
  | (k1, v1) :: as, (k2, v2) :: bs => k1 == k2 && Value.beq v1 v2 && Value.beqDict as bs
  | _, _ => false

end

instance : BEq Value := ⟨Value.beq⟩

/-- Python `key in config`.  For a section (dict) this is key membership,
for a string the substring test, for a list element membership; for scalar
numbers Python raises `TypeError` — such mismatched shapes are excluded by
the well-formedness hypotheses of the theorems below, and the guard is
modelled as failing. -/
def pyInV (k : String) : Value → Bool
  | .dict entries => (entries.lookup k).isSome
  | .str s => strContains s k
  | .list elems => elems.contains (.str k)
  | _ => false

/-- Python `config[key]`.  Only reached under the `key in config` guard with
`config` a section, where the lookup succeeds; the default is never
observable. -/
def Value.getKey (v : Value) (k : String) : Value :=
  match v with
  | .dict entries => (entries.lookup k).getD (.str "")
  | _ => .str ""

/-- Python `config[key] = nv` on a section: replace the existing binding
(the assignment is only reached under the `key in config` guard). -/
def Value.setKey (v : Value) (k : String) (nv : Value) : Value :=
  match v with
  | .dict entries => .dict (entries.map (fun p => if p.1 = k then (k, nv) else p))
  | _ => v

/-- The window-definition tree (`definition_dict`).  `nil` / `cons` encode an
ordered dictionary of named entries in insertion order; `widget w` is a leaf
holding an input widget; `other` is any object that is neither a dict nor a
widget (logged and skipped by every traversal). -/
inductive WinDef (W : Type) where
  | widget (w : W)
  | other
  | nil
  | cons (key : String) (node : WinDef W) (rest : WinDef W)

/-- The duck-typed interface every input-widget variant implements
(`setSpec`, `setValue`, `getValue`, `validateValue`). -/
structure WidgetOps (W : Type) where
  setSpec : W → SpecResult → W
  setValue : W → Value → W
  getValue : W → Value
  validateValue : W → Bool × String

/-- Python `key in configspec` (same conventions as `pyInV`). -/
def Configspec.hasKey (cs : Configspec) (k : String) : Bool :=
  match cs with
  | .dict entries _ => (entries.lookup k).isSome
  | .str s => strContains s k

/-- Python `configspec[key]` (only reached under the `hasKey` guard). -/
def Configspec.getKey (cs : Configspec) (k : String) : Configspec :=
  match cs with
  | .dict entries _ => (entries.lookup k).getD (.str "")
  | .str _ => .str ""

/-- ConfigObj `configspec.comments[key]`: the comment lines attached to a
key of a section (empty when absent). -/
def Configspec.commentsFor (cs : Configspec) (k : String) : List String :=
  match cs with
  | .dict _ comments => (comments.lookup k).getD []
  | .str _ => []

/-- `ConfigWindow.setValuesFromConfig` (lines 272-304): walk the window
definition in insertion order; skip the reserved title key; for each entry
present in `config`, either recurse into a subsection (narrowing the
configspec when possible) or, at a widget leaf, apply the parsed spec (when
the configspec has the entry) and set the stored value.  Entries missing
from the config, non-widget leaves, and an absent config are logged and
skipped. -/
def setValuesFromConfig (ops : WidgetOps W) :
    WinDef W → Option Value → Option Configspec → WinDef W
  | .cons key node rest, config, configspec =>
    let node' :=
      if key = "__section_title__" then node
      else
        match config with
        | none => node
        | some cfg =>
          if pyInV key cfg then
            match node with
            | .widget w =>
              let w1 :=
                match configspec with
                | some cs =>
                  if cs.hasKey key then
                    ops.setSpec w (configspecParser (cs.getKey key) (cs.commentsFor key))
                  else w
                | none => w
              .widget (ops.setValue w1 (cfg.getKey key))
            | .other => .other
            | sub =>
              let csub : Option Configspec :=
                match configspec with
                | some cs => if cs.hasKey key then some (cs.getKey key) else none
                | none => none
              setValuesFromConfig ops sub (some (cfg.getKey key)) csub
          else node
    .cons key node' (setValuesFromConfig ops rest config configspec)
  | wd, _, _ => wd

/-- `ConfigWindow.validateConfiguration` (lines 474-503): walk the window
definition in insertion order threading the accumulated flag and error
string; at each widget leaf call `validateValue`, clear the flag on failure
and append the returned string. -/
def validateConfiguration (ops : WidgetOps W) : WinDef W → String → Bool → Bool × String
  | .cons key node rest, result_string, result_bool =>
    let st : Bool × String :=
      if key = "__section_title__" then (result_bool, result_string)
      else
        match node with
        | .widget w =>
          let r := ops.validateValue w
          ((if r.1 = false then false else result_bool), result_string ++ r.2)
        | .other => (result_bool, result_string)
        | sub => validateConfiguration ops sub result_string result_bool
    validateConfiguration ops rest st.2 st.1
  | _, result_string, result_bool => (result_bool, result_string)

/-- `ConfigWindow.updateConfiguration` (lines 506-531) on a present config:
walk the window definition in insertion order; for each entry present in the
config, overwrite the entry with the widget's value, or recurse into a
subsection (the in-place mutation of `config[section]` becomes a functional
`setKey`). -/
def updateConfigurationV (ops : WidgetOps W) : WinDef W → Value → Value
  | .cons key node rest, cfg =>
    let cfg' :=
      if key = "__section_title__" then cfg
      else if pyInV key cfg then
        match node with
        | .widget w => cfg.setKey key (ops.getValue w)
        | .other => cfg
        | sub => cfg.setKey key (updateConfigurationV ops sub (cfg.getKey key))
      else cfg
    updateConfigurationV ops rest cfg'
  | _, cfg => cfg

/-- `ConfigWindow.updateConfiguration` including the `config is None` case
(every per-section guard fails, so an absent config is returned unchanged). -/
def updateConfiguration (ops : WidgetOps W) (wd : WinDef W) :
    Option Value → Option Value
  | some cfg => some (updateConfigurationV ops wd cfg)
  | none => none

/-- The widget leaves of a window definition in insertion (visit) order,
skipping the reserved title key and non-widget items. -/
def collectLeaves : WinDef W → List W
  | .cons key node rest =>
    (if key = "__section_title__" then []
     else
       match node with
       | .widget w => [w]
       | .other => []
       | sub => collectLeaves sub) ++ collectLeaves rest
  | _ => []

/-! ## The dialog life cycle (`accept` / `applyChanges`, lines 140-163) -/

/-- Qt's `QDialog.Rejected` result code. -/
def QDialogRejected : Nat := 0

/-- Qt's `QDialog.Accepted` result code. -/
def QDialogAccepted : Nat := 1

/-- `ConfigWindow.Applied = QDialog.Accepted + QDialog.Rejected + 1`
(line 96): a result code distinct from accepted and rejected. -/
def ConfigWindowApplied : Nat := QDialogAccepted + QDialogRejected + 1

/-- The observable state of a `ConfigWindow` dialog: its window definition
(holding the widgets), the configuration document (`var_dict`), the current
result code, and whether the dialog is open. -/
structure DialogState (W : Type) where
  cfg_window_def : WinDef W
  var_dict : Option Value
  resultCode : Nat
  isOpen : Bool

/-- `ConfigWindow.accept` (lines 140-150): validate; on success commit the
widget values into `var_dict` and close with the Accepted code (via
`QDialog.accept`); on failure only a message box is shown — the state is
unchanged and the dialog stays open. -/
def ConfigWindow.accept (ops : WidgetOps W) (s : DialogState W) : DialogState W :=
  let v := validateConfiguration ops s.cfg_window_def "" true
  if v.1 then
    { s with var_dict := updateConfiguration ops s.cfg_window_def s.var_dict,
             resultCode := QDialogAccepted, isOpen := false }
  else s

/-- `ConfigWindow.applyChanges` (lines 152-163): validate; on success commit
the widget values and set the distinct Applied result code without closing;
on failure only a message box is shown. -/
def ConfigWindow.applyChanges (ops : WidgetOps W) (s : DialogState W) : DialogState W :=
  let v := validateConfiguration ops s.cfg_window_def "" true
  if v.1 then
    { s with var_dict := updateConfiguration ops s.cfg_window_def s.var_dict,
             resultCode := ConfigWindowApplied }
  else s

/-! ## Widget variants -/

/-- The three Qt check states. -/
inductive CheckState where
  | unchecked
  | checked
  | partlyChecked
deriving DecidableEq

/-- `CfgCheckBox` (lines 539-593): a (possibly tristate) checkbox. -/
structure CfgCheckBox where
  tristate : Bool
  checkState : CheckState
deriving DecidableEq

/-- Python `value == n` for an integer literal `n`: numeric values compare
by value (`True == 1`), everything else compares unequal. -/
def pyEqInt (v : Value) (n : Int) : Bool :=
  match v with
  | .int m => m == n
  | .bool b => (if b then (1 : Int) else 0) == n
  | .float q => q == (n : Rat)
  | _ => false

/-- `CfgCheckBox.getValue` (lines 569-581): 0 / 1 / 2 as a Python `int`. -/
def CfgCheckBox.getValue (c : CfgCheckBox) : Value :=
  match c.checkState with
  | .unchecked => .int 0
  | .checked => .int 1
  | .partlyChecked => .int 2

/-- `CfgCheckBox.setValue` (lines 583-593): `value == 0` unchecked,
`value == 2` partially checked, anything else checked. -/
def CfgCheckBox.setValue (c : CfgCheckBox) (v : Value) : CfgCheckBox :=
  if pyEqInt v 0 then { c with checkState := .unchecked }
  else if pyEqInt v 2 then { c with checkState := .partlyChecked }
  else { c with checkState := .checked }

/-- `CfgCheckBox.validateValue` (lines 562-567): always valid. -/
def CfgCheckBox.validateValue (_ : CfgCheckBox) : Bool × String := (true, "")

/-- `CfgCheckBox.setSpec` (lines 553-560): only installs the comment as a
tooltip, which has no modelled observable state. -/
def CfgCheckBox.setSpec (c : CfgCheckBox) (_ : SpecResult) : CfgCheckBox := c

/-- The `WidgetOps` dictionary of `CfgCheckBox`. -/
def checkBoxOps : WidgetOps CfgCheckBox :=
  { setSpec := CfgCheckBox.setSpec, setValue := CfgCheckBox.setValue,
    getValue := CfgCheckBox.getValue, validateValue := CfgCheckBox.validateValue }

/-- Render a scanner number the way Python `str.format` renders it in the
validation messages (the line-edit minimum comes from `integer` / `string`
specs, so only the `int` case is exercised; the rational rendering is a
placeholder for the unreached float case). -/
def PyNum.pyStr : PyNum → String
  | .int n => toString n
  | .float q => toString q

/-- Python `field_length < self.size_min` for the stored bound. -/
def natLtPyNum (len : Nat) : PyNum → Bool
  | .int n => (len : Int) < n
  | .float q => (len : Rat) < q

/-- `CfgLineEdit` (lines 748-818): a one-line text input with a minimum
length (`size_min`, default 0) and an optional maximum length. -/
structure CfgLineEdit where
  label : String
  lineedit : String
  size_min : PyNum
  maxLength : Option PyNum
deriving DecidableEq

/-- `CfgLineEdit.validateValue` (lines 792-805): fail with a formatted
message when the text is shorter than `size_min`. -/
def CfgLineEdit.validateValue (w : CfgLineEdit) : Bool × String :=
  let field_length := w.lineedit.length
  if natLtPyNum field_length w.size_min then
    (false, "\nNot enough chars (expected " ++ w.size_min.pyStr ++ ", found " ++
      toString field_length ++ ") for the field \"" ++ w.label ++ "\"\n")
  else (true, "")

/-- `CfgLineEdit.setSpec` (lines 778-790): minimum becomes `size_min`,
maximum becomes the maximum text length. -/
def CfgLineEdit.setSpec (w : CfgLineEdit) (spec : SpecResult) : CfgLineEdit :=
  let w1 := match spec.minimum with | some m => { w with size_min := m } | none => w
  match spec.maximum with | some m => { w1 with maxLength := some m } | none => w1

/-- `CfgLineEdit.setValue` (lines 813-818): `setText` stores the string
(a non-string argument would raise in Qt; excluded by shape hypotheses). -/
def CfgLineEdit.setValue (w : CfgLineEdit) (v : Value) : CfgLineEdit :=
  match v with
  | .str s => { w with lineedit := s }
  | _ => w

/-- `CfgLineEdit.getValue` (lines 807-811). -/
def CfgLineEdit.getValue (w : CfgLineEdit) : Value := .str w.lineedit

/-- The `WidgetOps` dictionary of `CfgLineEdit`. -/
def lineEditOps : WidgetOps CfgLineEdit :=
  { setSpec := CfgLineEdit.setSpec, setValue := CfgLineEdit.setValue,
    getValue := CfgLineEdit.getValue, validateValue := CfgLineEdit.validateValue }

/-! ## Table widgets -/

/-- A one-character string holding a single quote (kept out of other string
literals for hygiene). -/
def singleQuote : String := ⟨[Char.ofNat 39]⟩

/-- The number of distinct elements of a list (Python `len(set(l))`). -/
def distinctCount : List String → Nat
  | [] => 0
  | x :: xs => (if xs.contains x then 0 else 1) + distinctCount xs

/-- `CfgTableToolParameters` (lines 1205-1317) as far as validation observes
it: the table label, the column count, and for every row the column-0 cell
widget — a `QSpinBox` whose integer value is the tool number (`none` models
a row with no cell widget in column 0). -/
structure CfgTableToolParameters where
  label : String
  columnCount : Nat
  col0 : List (Option Int)

/-- The row loop of `CfgTableToolParameters.validateValue` (lines 1265-1273):
thread the flag, the error string, the tool-1 indicator and the collected
key strings over the rows, numbering rows from `i`. -/
def toolRowsScan (label : String) : Nat → List (Option Int) → Bool → String → Bool →
    List String → Bool × String × Bool × List String
  | _, [], rb, rs, c1, ks => (rb, rs, c1, ks)
  | i, none :: rest, _, rs, c1, ks =>
    toolRowsScan label (i + 1) rest false
      (rs ++ "\nThe cell at line " ++ toString i ++
        ", column 0 must not be empty for the table \"" ++ label ++ "\"\n") c1 ks
  | i, some v :: rest, rb, rs, c1, ks =>
    toolRowsScan label (i + 1) rest rb rs (c1 || (v == 1)) (ks ++ [toString v])

/-- The first stage of `CfgTableToolParameters.validateValue`
(lines 1258-1279): when the table has rows and columns, scan the rows
(collecting key strings, flagging empty cells, detecting tool number 1) and
report the duplicate count when keys repeat.  Returns the flag, the error
string so far, and the tool-1 indicator. -/
def toolValidateStage1 (t : CfgTableToolParameters) : Bool × String × Bool :=
  if 0 < t.col0.length ∧ 0 < t.columnCount then
    if (toolRowsScan t.label 0 t.col0 true "" false []).2.2.2.length -
        distinctCount (toolRowsScan t.label 0 t.col0 true "" false []).2.2.2 ≠ 0 then
      (false,
       (toolRowsScan t.label 0 t.col0 true "" false []).2.1 ++ "\nFound " ++
         toString ((toolRowsScan t.label 0 t.col0 true "" false []).2.2.2.length -
           distinctCount (toolRowsScan t.label 0 t.col0 true "" false []).2.2.2) ++
         " duplicate elements for the table \"" ++ t.label ++ "\"\n",
       (toolRowsScan t.label 0 t.col0 true "" false []).2.2.1)
    else
      ((toolRowsScan t.label 0 t.col0 true "" false []).1,
       (toolRowsScan t.label 0 t.col0 true "" false []).2.1,
       (toolRowsScan t.label 0 t.col0 true "" false []).2.2.1)
  else (true, "", false)

/-- `CfgTableToolParameters.validateValue` (lines 1251-1285): the row scan
and duplicate check above, then — unconditionally — the missing-tool-1
report when no row had value 1. -/
def CfgTableToolParameters.validateValue (t : CfgTableToolParameters) : Bool × String :=
  if !(toolValidateStage1 t).2.2 then
    (false, (toolValidateStage1 t).2.1 ++
      "\nThe table \"" ++ t.label ++ "\" must always contains tool number " ++
      singleQuote ++ "1" ++ singleQuote ++ "\n")
  else ((toolValidateStage1 t).1, (toolValidateStage1 t).2.1)

/-- `CfgTable` (lines 924-1109) as far as `setValue` observes it: the column
names (`self.keys`) and the rows, each row being the list of cell contents
`appendLine` received. -/
structure CfgTable where
  label : String
  keys : List String
  rows : List (List Value)

/-- Ordered insertion before the first element not below `a`
(helper of the stable insertion sort modelling Python's stable `sorted`). -/
def insertOrd (le : α → α → Bool) (a : α) : List α → List α
  | [] => [a]
  | b :: bs => if le a b then a :: b :: bs else b :: insertOrd le a bs

/-- Stable insertion sort: equal elements keep their original order, as in
Python's `sorted`. -/
def isortBy (le : α → α → Bool) : List α → List α
  | [] => []
  | a :: as => insertOrd le a (isortBy le as)

/-- Comparison by Python `float` value of the key (the default 0 is never
used: this order is only applied when every key parses). -/
def keyFloatLe (a b : String) : Bool :=
  decide ((pyFloat? a).getD 0 ≤ (pyFloat? b).getD 0)

/-- Python string comparison: lexicographic by code point. -/
def listLexLe : List Char → List Char → Bool
  | [], _ => true
  | _ :: _, [] => false
  | a :: as, b :: bs =>
    if a.toNat < b.toNat then true
    else if b.toNat < a.toNat then false
    else listLexLe as bs

/-- Python `a <= b` on strings. -/
def pyStrLe (a b : String) : Bool := listLexLe a.data b.data

/-- `sorted(value.keys(), key=float)` with fallback to `sorted(value.keys())`
(lines 1083-1089): Python computes `float(k)` for every key up front, so one
unparseable key raises `ValueError` before any comparison and the plain
lexicographic sort is used instead.  Both sorts are stable. -/
def pySortedKeys (ks : List String) : List String :=
  if ks.all (fun k => (pyFloat? k).isSome) then isortBy keyFloatLe ks
  else isortBy pyStrLe ks

/-- The inner column loop of `CfgTable.setValue` (lines 1095-1102): collect
`value[item][key]` for the non-key columns, or fail (`break` with
`result = False`) at the first column missing from the row's dict. -/
def innerLookupLoop (inner : Value) : List String → Option (List Value)
  | [] => some []
  | c :: cs =>
    if pyInV c inner then
      match innerLookupLoop inner cs with
      | some vs => some (inner.getKey c :: vs)
      | none => none
    else none

/-- The row loop of `CfgTable.setValue` (lines 1091-1105): for each key in
sort order build the line `[item, value[item][k1], ...]`; a missing column
clears `result`, and once `result` is false no further line is appended
(`appendLine` in this context always appends at the end: the table was just
cleared and nothing is selected). -/
def setValueRows (cols : List String) (entries : List (String × Value)) :
    List String → Bool → List (List Value) → Bool × List (List Value)
  | [], res, acc => (res, acc)
  | item :: rest, res, acc =>
    let inner := (entries.lookup item).getD (.str "")
    match innerLookupLoop inner cols.tail with
    | some vs =>
      if res then setValueRows cols entries rest res (acc ++ [Value.str item :: vs])
      else setValueRows cols entries rest res acc
    | none => setValueRows cols entries rest false acc

/-- `CfgTable.setValue` (lines 1071-1109): for a dict value and a non-empty
column list, clear the table (`setRowCount(0)`), sort the keys, and append
one row per key until a row fails; otherwise return `False` leaving the rows
untouched. -/
def CfgTable.setValue (t : CfgTable) (value : Value) : Bool × CfgTable :=
  match value with
  | .dict entries =>
    if 0 < t.keys.length then
      let item_list := pySortedKeys (entries.map Prod.fst)
      let r := setValueRows t.keys entries item_list true []
      (r.1, { t with rows := r.2 })
    else (false, t)
  | _ => (false, t)

/-! ## Helper notions used by the theorem statements -/

/-- Concatenation of a list of strings (used to state the error-report
aggregation of `validateConfiguration`). -/
def strConcat : List String → String
  | [] => ""
  | s :: rest => s ++ strConcat rest

/-- The error messages produced by the row loop of
`CfgTableToolParameters.validateValue` for rows numbered from `i`
(one message per row whose column-0 cell is missing). -/
def toolScanMsgs (label : String) : Nat → List (Option Int) → String
  | _, [] => ""
  | i, none :: rest =>
    ("\nThe cell at line " ++ toString i ++
      ", column 0 must not be empty for the table \"" ++ label ++ "\"\n") ++
      toolScanMsgs label (i + 1) rest
  | i, some _ :: rest => toolScanMsgs label (i + 1) rest

/-- The entry list of a window-definition section node. -/
def WinDef.entries : WinDef W → List (String × WinDef W)
  | .cons k n r => (k, n) :: r.entries
  | _ => []

/-- Whether a window-definition node is a section (a dict in the Python
source). -/
def WinDef.isSection : WinDef W → Prop
  | .nil => True
  | .cons _ _ _ => True
  | _ => False

/-- Shape compatibility between a window definition and a configuration
section, as the populate/commit traversals assume it: the configuration is a
section with no duplicated keys (Python dictionaries cannot repeat keys),
and every sub-section entry that is present in the configuration maps to a
compatible configuration sub-section. -/
inductive Compat : WinDef W → Value → Prop where
  | intro (wd : WinDef W) (c : List (String × Value))
      (hnodup : (c.map Prod.fst).Nodup)
      (hsub : ∀ k node v, (k, node) ∈ wd.entries → node.isSection →
        k ≠ "__section_title__" → c.lookup k = some v → Compat node v) :
      Compat wd (.dict c)

/-- The claim's notion of an option argument wrapped in a matching pair of
single or double quotes (stated from the specification's words, for
comparison with what the code does). -/
def specWrappedInMatchingQuotes (s : String) : Bool :=
  decide (2 ≤ s.length) &&
    ((pyStartsWith s '\'' && (s.data.getLast? == some (Char.ofNat 39))) ||
     (pyStartsWith s '"' && (s.data.getLast? == some '"')))

/-! ## Concrete inputs used by examples, witnesses and counterexamples -/

/-- The spec string `option('mm','in', default='mm')` (single quotes built
by concatenation). -/
def optionSpecExample : String :=
  "option(" ++ singleQuote ++ "mm" ++ singleQuote ++ "," ++ singleQuote ++ "in" ++ singleQuote ++
    ", default=" ++ singleQuote ++ "mm" ++ singleQuote ++ ")"

/-- The spec string `option("abc')`: its single argument starts with a
double quote but ends with a single quote. -/
def optionMismatchedExample : String := "option(" ++ "\"abc" ++ singleQuote ++ ")"

/-- An invalid line edit labelled fieldA (empty text, minimum length 1). -/
def leBadA : CfgLineEdit :=
  { label := "fieldA", lineedit := "", size_min := .int 1, maxLength := none }

/-- An invalid line edit labelled fieldB (empty text, minimum length 1). -/
def leBadB : CfgLineEdit :=
  { label := "fieldB", lineedit := "", size_min := .int 1, maxLength := none }

/-- A valid line edit labelled fieldA. -/
def leOkA : CfgLineEdit :=
  { label := "fieldA", lineedit := "x", size_min := .int 1, maxLength := none }

/-- A valid line edit labelled fieldB. -/
def leOkB : CfgLineEdit :=
  { label := "fieldB", lineedit := "y", size_min := .int 1, maxLength := none }

/-- A form with two invalid leaves. -/
def wdTwoBad : WinDef CfgLineEdit :=
  .cons "A" (.widget leBadA) (.cons "B" (.widget leBadB) .nil)

/-- A form with zero invalid leaves. -/
def wdTwoOk : WinDef CfgLineEdit :=
  .cons "A" (.widget leOkA) (.cons "B" (.widget leOkB) .nil)

/-- A window definition holding one checkbox leaf under key `a`. -/
def wdCheckBox : WinDef CfgCheckBox :=
  .cons "a" (.widget { tristate := false, checkState := .unchecked }) .nil

/-- A configuration document storing the boolean `True` under key `a`
(as ConfigObj produces for a validated `boolean` entry). -/
def cfgBoolTrue : Value := .dict [("a", .bool true)]

/-- A dialog whose single checkbox form validates successfully. -/
def dlgOk : DialogState CfgCheckBox :=
  { cfg_window_def := wdCheckBox, var_dict := some (.dict [("a", .int 0)]),
    resultCode := QDialogRejected, isOpen := true }

/-- A dialog whose form contains two invalid line edits. -/
def dlgBad : DialogState CfgLineEdit :=
  { cfg_window_def := wdTwoBad, var_dict := some (.dict [("A", .str ""), ("B", .str "")]),
    resultCode := QDialogRejected, isOpen := true }

/-- A tool-parameters table with two rows sharing tool number 2 and no
tool number 1. -/
def toolTableDup : CfgTableToolParameters :=
  { label := "Tool Parameters", columnCount := 3, col0 := [some 2, some 2] }

/-- A three-column table (key column plus diameter and speed). -/
def demoTable : CfgTable :=
  { label := "Tools", keys := ["name", "diameter", "speed"],
    rows := [[.str "old", .float 1, .float 1]] }

/-- A table value whose keys all parse as floats (so they are ordered
numerically: 2 before 15). -/
def demoTableValue : Value :=
  .dict [("15", .dict [("diameter", .float 1.5), ("speed", .float 6000)]),
         ("2", .dict [("diameter", .float 2), ("speed", .float 6000)])]

/-- The key strings collected from the column-0 cells of a tool-parameters
table (`keys_list` in the source, one string per present cell widget). -/
def toolKeysList (t : CfgTableToolParameters) : List String :=
  t.col0.filterMap (fun c => c.map toString)

/-- `value[item]` for a table value (only used under guards that ensure the
key is present). -/
def tableInner (entries : List (String × Value)) (item : String) : Value :=
  (entries.lookup item).getD (.str "")

/-- Whether a table row's dict provides every non-key column. -/
def rowComplete (cols : List String) (entries : List (String × Value)) (item : String) : Bool :=
  (innerLookupLoop (tableInner entries item) cols.tail).isSome

/-- The line `appendLine` receives for a complete row: the key, then the
value of each non-key column. -/
def builtRow (cols : List String) (entries : List (String × Value)) (item : String) :
    List Value :=
  Value.str item :: cols.tail.map (fun c => (tableInner entries item).getKey c)

/-- A value-faithful demo widget (its state is the stored value itself),
used to instantiate the universally quantified populate/commit round-trip
theorem at a concrete input. -/
def idOps : WidgetOps Value :=
  { setSpec := fun w _ => w, setValue := fun _ v => v,
    getValue := fun w => w, validateValue := fun _ => (true, "") }

/-- A window definition holding one value-faithful demo widget. -/
def wdId : WinDef Value := .cons "a" (.widget (Value.str "x")) .nil

/-- A concrete configuration document for the round-trip witness. -/
def cfgId : Value := .dict [("a", .str "hello")]

/-! ## General lemmas -/

theorem strAppend_empty (s : String) : s ++ "" = s := by
  cases s with
  | mk data => show String.mk (data ++ []) = String.mk data
               rw [List.append_nil]

theorem strAppend_assoc (a b c : String) : a ++ b ++ c = a ++ (b ++ c) := by
  cases a with
  | mk da =>
    cases b with
    | mk db =>
      cases c with
      | mk dc => show String.mk (da ++ db ++ dc) = String.mk (da ++ (db ++ dc))
                 rw [List.append_assoc]

theorem isPrefixOf_self_append (b c : List Char) : b.isPrefixOf (b ++ c) = true := by
  induction b with
  | nil => simp [List.isPrefixOf]
  | cons x xs ih => simp [List.isPrefixOf, ih]

theorem subFindAux_append_isSome (a b c : List Char) :
    (subFindAux b (a ++ (b ++ c))).isSome = true := by
  induction a with
  | nil =>
    show (subFindAux b (b ++ c)).isSome = true
    cases hb : b with
    | nil => cases c <;> simp [subFindAux]
    | cons x xs =>
      rw [← hb]
      have : b ++ c = x :: (xs ++ c) := by rw [hb]; rfl
      rw [this]
      have hpre : b.isPrefixOf (x :: (xs ++ c)) = true := by
        rw [hb] at *
        exact isPrefixOf_self_append (x :: xs) c
      simp [subFindAux, hpre]
  | cons y ys ih =>
    show (subFindAux b (y :: (ys ++ (b ++ c)))).isSome = true
    rw [subFindAux]
    split
    · rfl
    · simpa using ih

theorem strContains_append_middle (x y z : String) :
    strContains (x ++ (y ++ z)) y = true := by
  cases x with
  | mk dx =>
    cases y with
    | mk dy =>
      cases z with
      | mk dz =>
        show (subFindAux dy (dx ++ (dy ++ dz))).isSome = true
        exact subFindAux_append_isSome dx dy dz

theorem strContains_append_right (x y : String) : strContains (x ++ y) y = true := by
  have h := strContains_append_middle x y ""
  rwa [strAppend_empty] at h

/-! ## Claim C4: the table-schema (dict) branch of the Spec Scanner -/

/-- C4: for every nested-mapping input, the scanner returns no numeric
bounds, and returns as `string_list` the keys of the mapping stored under
the wildcard key `__many__` (when it exists and is itself a mapping) in
their original order with an empty string prepended; for a mapping without
such a wildcard entry the list is empty. -/
theorem claim_C4 (entries : List (String × Configspec)) (coms : List (String × List String))
    (comments : List String) :
    (configspecParser (.dict entries coms) comments).minimum = none ∧
    (configspecParser (.dict entries coms) comments).maximum = none ∧
    (configspecParser (.dict entries coms) comments).string_list =
      (match entries.lookup "__many__" with
       | some (.dict inner _) => "" :: inner.map Prod.fst
       | _ => []) := by
  exact ⟨rfl, rfl, rfl⟩

/-! ## Claim C5: comment assembly -/

theorem assembleComments_eq (comments : List String) :
    assembleComments comments =
      pyReplace (pyStripChars [' ', '#'] (comments.foldl (fun acc c => acc ++ pyStripWs c) ""))
        "#" "\n" := by
  cases comments with
  | nil => rfl
  | cons c cs => simp [assembleComments]

/-- C5: the scanner's comment equals the concatenation of the
whitespace-stripped fragments, stripped of surrounding spaces and hash
marks, with every remaining hash mark replaced by a newline; the two-part
sample yields both parts separated by a newline, starting with neither a
hash mark nor a space, and an empty comment list yields the empty string. -/
theorem claim_C5 :
    (∀ (spec : Configspec) (comments : List String),
      (configspecParser spec comments).comment =
        pyReplace (pyStripChars [' ', '#'] (comments.foldl (fun acc c => acc ++ pyStripWs c) ""))
          "#" "\n") ∧
    (configspecParser (.str "x") ["# first part", "# second part"]).comment =
      "first part\n second part" ∧
    strContains ((configspecParser (.str "x") ["# first part", "# second part"]).comment)
      "first part" = true ∧
    strContains ((configspecParser (.str "x") ["# first part", "# second part"]).comment)
      "second part" = true ∧
    pyStartsWith ((configspecParser (.str "x") ["# first part", "# second part"]).comment) '#'
      = false ∧
    pyStartsWith ((configspecParser (.str "x") ["# first part", "# second part"]).comment) ' '
      = false ∧
    (configspecParser (.str "x") []).comment = "" := by
  refine ⟨?_, by decide, by decide, by decide, by decide, by decide, by decide⟩
  intro spec comments
  cases spec <;> exact assembleComments_eq comments

/-! ## Claim C3: the option-branch quote filter -/

/-- C3 counterexample: in `option("abc')` the single raw argument starts
with a double quote but ends with a single quote — it is not wrapped in a
matching pair of quotes, yet the scanner keeps it (with only the leading
double quote stripped), so membership in the token list is not equivalent
to being wrapped in a matching pair. -/
theorem claim_C3_counterexample :
    (configspecParser (.str optionMismatchedExample) []).string_list = ["abc" ++ singleQuote] ∧
    specWrappedInMatchingQuotes (pyStripWs ("\"abc" ++ singleQuote)) = false := by
  exact ⟨by decide, by decide⟩

/-- C3 amended: a trimmed argument is kept if and only if it starts with a
single or double quote; the quote character found at the start is stripped
from both ends (all its leading and trailing occurrences), order is
preserved, and unquoted arguments are discarded.  When the resulting token
list is non-empty it is exactly the scanner's `string_list`. -/
theorem claim_C3_amended :
    (∀ args : List String,
      optionQuoteFilter args = args.filterMap (fun a =>
        let e := pyStripWs a
        if pyStartsWith e '"' then some (pyStripChars ['"'] e)
        else if pyStartsWith e '\'' then some (pyStripChars ['\''] e)
        else none)) ∧
    (∀ (s : String) (comments : List String),
      optionQuoteFilter (configspecParserExctractSections "option" s) ≠ [] →
      (configspecParser (.str s) comments).string_list =
        optionQuoteFilter (configspecParserExctractSections "option" s)) := by
  constructor
  · intro args
    induction args with
    | nil => rfl
    | cons a as ih =>
      simp only [optionQuoteFilter, List.filterMap_cons]
      by_cases h1 : pyStartsWith (pyStripWs a) '"'
      · simp [h1, ih]
      · by_cases h2 : pyStartsWith (pyStripWs a) '\''
        · simp [h1, h2, ih]
        · simp [h1, h2, ih]
  · intro s comments h
    have hlen : ¬ (optionQuoteFilter (configspecParserExctractSections "option" s)).length ≤ 0 := by
      cases hc : optionQuoteFilter (configspecParserExctractSections "option" s) with
      | nil => exact absurd hc h
      | cons x xs => simp
    simp only [configspecParser, if_neg hlen]

/-- C3 amended, witness: the canonical `option` example keeps exactly the
two quoted tokens. -/
theorem claim_C3_witness :
    (configspecParser (.str optionSpecExample) []).string_list = ["mm", "in"] := by
  have hne : optionQuoteFilter (configspecParserExctractSections "option" optionSpecExample) ≠ [] := by
    decide
  rw [claim_C3_amended.2 optionSpecExample [] hne]
  decide

/-! ## Claim C2: total, degrading behaviour of the Spec Scanner -/

/-- C2: the scanner is a total function into well-formed four-field records
(every caught `ValueError` is embedded as a `none` parse result, so totality
is structural); moreover each failure mode degrades to leaving fields unset:
when none of the four kind prefixes is found (which covers both a missing
prefix and a missing closing parenthesis, since either makes the extraction
empty) the result has no bounds and an empty token list, and when no
argument parses numerically through any of the positional or keyword paths
the integer and float loops leave both bounds unset while keeping the
non-empty raw arguments. -/
theorem claim_C2 :
    (∀ (s : String) (comments : List String),
      configspecParserExctractSections "option" s = [] →
      configspecParserExctractSections "integer" s = [] →
      configspecParserExctractSections "string" s = [] →
      configspecParserExctractSections "float" s = [] →
      configspecParser (.str s) comments =
        { minimum := none, maximum := none, string_list := [],
          comment := assembleComments comments }) ∧
    (∀ l : List String,
      (∀ e ∈ l,
        pyInt? (pyStripWs e) = none ∧
        pyInt? (minKeywordCandidate (pyStripWs e)) = none ∧
        pyInt? (maxKeywordCandidate (pyStripWs e)) = none ∧
        pyInt? (maxKeywordCandidate (minKeywordCandidate (pyStripWs e))) = none) →
      intStrLoop l none none = (l.filter (fun x => x ≠ ""), none, none)) ∧
    (∀ l : List String,
      (∀ e ∈ l,
        pyFloat? (pyStripWs e) = none ∧
        pyFloat? (minKeywordCandidate (pyStripWs e)) = none ∧
        pyFloat? (maxKeywordCandidate (pyStripWs e)) = none ∧
        pyFloat? (maxKeywordCandidate (minKeywordCandidate (pyStripWs e))) = none) →
      floatLoop l none none = (l.filter (fun x => x ≠ ""), none, none)) := by
  refine ⟨?_, ?_, ?_⟩
  · intro s comments h1 h2 h3 h4
    simp [configspecParser, h1, h2, h3, h4, optionQuoteFilter, intStrLoop, floatLoop]
  · intro l
    induction l with
    | nil => intro _; rfl
    | cons x xs ih =>
      intro h
      obtain ⟨hx1, hx2, hx3, hx4⟩ := h x (List.mem_cons_self x xs)
      have hxs := fun e he => h e (List.mem_cons_of_mem x he)
      by_cases hx0 : x = ""
      · rw [show intStrLoop (x :: xs) none none = intStrLoop xs none none by
          simp [intStrLoop, hx0]]
        rw [ih hxs]
        simp [List.filter_cons, hx0]
      · simp only [intStrLoop, if_neg hx0, hx1, Option.map_none', Option.isNone_none,
                   Bool.true_and]
        by_cases hmin : strContains (pyStripWs x) "min" = true
        · simp only [if_pos hmin, hx2, Option.map_none', Option.isNone_none, Bool.true_and]
          by_cases hmax : strContains (minKeywordCandidate (pyStripWs x)) "max" = true
          · simp only [if_pos hmax, hx4, Option.map_none']
            rw [ih hxs]
            simp [List.filter_cons, hx0]
          · simp only [if_neg hmax]
            rw [ih hxs]
            simp [List.filter_cons, hx0]
        · simp only [if_neg hmin]
          by_cases hmax : strContains (pyStripWs x) "max" = true
          · simp only [if_pos hmax, hx3, Option.map_none']
            rw [ih hxs]
            simp [List.filter_cons, hx0]
          · simp only [if_neg hmax]
            rw [ih hxs]
            simp [List.filter_cons, hx0]
  · intro l
    induction l with
    | nil => intro _; rfl
    | cons x xs ih =>
      intro h
      obtain ⟨hx1, hx2, hx3, hx4⟩ := h x (List.mem_cons_self x xs)
      have hxs := fun e he => h e (List.mem_cons_of_mem x he)
      by_cases hx0 : x = ""
      · rw [show floatLoop (x :: xs) none none = floatLoop xs none none by
          simp [floatLoop, hx0]]
        rw [ih hxs]
        simp [List.filter_cons, hx0]
      · simp only [floatLoop, if_neg hx0, hx1, Option.map_none', Option.isNone_none,
                   Bool.true_and]
        by_cases hmin : strContains (pyStripWs x) "min" = true
        · simp only [if_pos hmin, hx2, Option.map_none', Option.isNone_none, Bool.true_and]
          by_cases hmax : strContains (minKeywordCandidate (pyStripWs x)) "max" = true
          · simp only [if_pos hmax, hx4, Option.map_none']
            rw [ih hxs]
            simp [List.filter_cons, hx0]
          · simp only [if_neg hmax]
            rw [ih hxs]
            simp [List.filter_cons, hx0]
        · simp only [if_neg hmin]
          by_cases hmax : strContains (pyStripWs x) "max" = true
          · simp only [if_pos hmax, hx3, Option.map_none']
            rw [ih hxs]
            simp [List.filter_cons, hx0]
          · simp only [if_neg hmax]
            rw [ih hxs]
            simp [List.filter_cons, hx0]

/-- C2 witness: a spec kind the scanner does not know yields a record with
every constraint field unset, and an argument that never parses numerically
leaves both bounds unset in each numeric loop. -/
theorem claim_C2_witness :
    configspecParser (.str "boolean(default=True)") ["abc"] =
      { minimum := none, maximum := none, string_list := [],
        comment := assembleComments ["abc"] } ∧
    intStrLoop ["default=5x"] none none = (["default=5x"], none, none) ∧
    floatLoop ["default=5x"] none none = (["default=5x"], none, none) := by
  refine ⟨claim_C2.1 "boolean(default=True)" ["abc"] (by decide) (by decide) (by decide)
      (by decide), ?_, ?_⟩
  · have h := claim_C2.2.1 ["default=5x"] ?_
    · rw [h]; rfl
    · intro e he
      rw [List.mem_singleton] at he
      subst he
      exact ⟨by decide, by decide, by decide, by decide⟩
  · have h := claim_C2.2.2 ["default=5x"] ?_
    · rw [h]; rfl
    · intro e he
      rw [List.mem_singleton] at he
      subst he
      exact ⟨by decide, by decide, by decide, by decide⟩

/-! ## Claim C1: positional and keyword extraction of bounds -/

theorem intStrLoop_bothSet (l : List String) (m M : PyNum) :
    intStrLoop l (some m) (some M) = (l.filter (fun x => x ≠ ""), some m, some M) := by
  induction l with
  | nil => rfl
  | cons x xs ih =>
    by_cases hx0 : x = ""
    · rw [show intStrLoop (x :: xs) (some m) (some M) = intStrLoop xs (some m) (some M) by
        simp [intStrLoop, hx0]]
      rw [ih]
      simp [List.filter_cons, hx0]
    · simp only [intStrLoop, if_neg hx0, Option.isNone_some, Bool.false_and, if_neg
        (by simp : ¬ (false = true))]
      rw [ih]
      simp [List.filter_cons, hx0]

theorem intStrLoop_minSet (l : List String) (m : PyNum)
    (h : ∀ e ∈ l, strContains (pyStripWs e) "max" = false) :
    intStrLoop l (some m) none =
      (l.filter (fun x => x ≠ ""), some m,
       ((l.filterMap (fun e => pyInt? (pyStripWs e))).get? 0).map PyNum.int) := by
  induction l with
  | nil => rfl
  | cons x xs ih =>
    have hx := h x (List.mem_cons_self x xs)
    have hxs := fun e he => h e (List.mem_cons_of_mem x he)
    by_cases hx0 : x = ""
    · have hxnum : pyInt? (pyStripWs "") = none := by decide
      rw [show intStrLoop (x :: xs) (some m) none = intStrLoop xs (some m) none by
        simp [intStrLoop, hx0]]
      rw [ih hxs]
      simp [List.filter_cons, List.filterMap_cons, hx0, hxnum]
    · cases hnum : pyInt? (pyStripWs x) with
      | some n =>
        simp only [intStrLoop, if_neg hx0, hnum, Option.map_some', Option.isNone_some,
          Bool.false_and, if_neg (by simp : ¬ (false = true))]
        rw [intStrLoop_bothSet]
        simp [List.filter_cons, List.filterMap_cons, hx0, hnum]
      | none =>
        simp only [intStrLoop, if_neg hx0, hnum, Option.map_none', Option.isNone_some,
          Bool.false_and, if_neg (by simp : ¬ (false = true)), Option.isNone_none,
          Bool.true_and, hx, if_neg (by simp : ¬ (false = true))]
        rw [ih hxs]
        simp [List.filter_cons, List.filterMap_cons, hx0, hnum]

theorem intStrLoop_positional (l : List String)
    (h : ∀ e ∈ l, strContains (pyStripWs e) "min" = false ∧
      strContains (pyStripWs e) "max" = false) :
    intStrLoop l none none =
      (l.filter (fun x => x ≠ ""),
       ((l.filterMap (fun e => pyInt? (pyStripWs e))).get? 0).map PyNum.int,
       ((l.filterMap (fun e => pyInt? (pyStripWs e))).get? 1).map PyNum.int) := by
  induction l with
  | nil => rfl
  | cons x xs ih =>
    obtain ⟨hxmin, hxmax⟩ := h x (List.mem_cons_self x xs)
    have hxs := fun e he => h e (List.mem_cons_of_mem x he)
    by_cases hx0 : x = ""
    · have hxnum : pyInt? (pyStripWs "") = none := by decide
      rw [show intStrLoop (x :: xs) none none = intStrLoop xs none none by
        simp [intStrLoop, hx0]]
      rw [ih hxs]
      simp [List.filter_cons, List.filterMap_cons, hx0, hxnum]
    · cases hnum : pyInt? (pyStripWs x) with
      | some n =>
        simp only [intStrLoop, if_neg hx0, hnum, Option.map_some', Option.isNone_some,
          Bool.false_and, if_neg (by simp : ¬ (false = true)), Option.isNone_none,
          Bool.true_and, hxmax]
        rw [intStrLoop_minSet xs _ (fun e he => (hxs e he).2)]
        simp [List.filter_cons, List.filterMap_cons, hx0, hnum]
      | none =>
        simp only [intStrLoop, if_neg hx0, hnum, Option.map_none', Option.isNone_none,
          Bool.true_and, hxmin, if_neg (by simp : ¬ (false = true)), hxmax]
        rw [ih hxs]
        simp [List.filter_cons, List.filterMap_cons, hx0, hnum]

theorem floatLoop_bothSet (l : List String) (m M : PyNum) :
    floatLoop l (some m) (some M) = (l.filter (fun x => x ≠ ""), some m, some M) := by
  induction l with
  | nil => rfl
  | cons x xs ih =>
    by_cases hx0 : x = ""
    · rw [show floatLoop (x :: xs) (some m) (some M) = floatLoop xs (some m) (some M) by
        simp [floatLoop, hx0]]
      rw [ih]
      simp [List.filter_cons, hx0]
    · simp only [floatLoop, if_neg hx0, Option.isNone_some, Bool.false_and, if_neg
        (by simp : ¬ (false = true))]
      rw [ih]
      simp [List.filter_cons, hx0]

theorem floatLoop_minSet (l : List String) (m : PyNum)
    (h : ∀ e ∈ l, strContains (pyStripWs e) "max" = false) :
    floatLoop l (some m) none =
      (l.filter (fun x => x ≠ ""), some m,
       ((l.filterMap (fun e => pyFloat? (pyStripWs e))).get? 0).map PyNum.float) := by
  induction l with
  | nil => rfl
  | cons x xs ih =>
    have hx := h x (List.mem_cons_self x xs)
    have hxs := fun e he => h e (List.mem_cons_of_mem x he)
    by_cases hx0 : x = ""
    · have hxnum : pyFloat? (pyStripWs "") = none := by decide
      rw [show floatLoop (x :: xs) (some m) none = floatLoop xs (some m) none by
        simp [floatLoop, hx0]]
      rw [ih hxs]
      simp [List.filter_cons, List.filterMap_cons, hx0, hxnum]
    · cases hnum : pyFloat? (pyStripWs x) with
      | some n =>
        simp only [floatLoop, if_neg hx0, hnum, Option.map_some', Option.isNone_some,
          Bool.false_and, if_neg (by simp : ¬ (false = true))]
        rw [floatLoop_bothSet]
        simp [List.filter_cons, List.filterMap_cons, hx0, hnum]
      | none =>
        simp only [floatLoop, if_neg hx0, hnum, Option.map_none', Option.isNone_some,
          Bool.false_and, if_neg (by simp : ¬ (false = true)), Option.isNone_none,
          Bool.true_and, hx, if_neg (by simp : ¬ (false = true))]
        rw [ih hxs]
        simp [List.filter_cons, List.filterMap_cons, hx0, hnum]

theorem floatLoop_positional (l : List String)
    (h : ∀ e ∈ l, strContains (pyStripWs e) "min" = false ∧
      strContains (pyStripWs e) "max" = false) :
    floatLoop l none none =
      (l.filter (fun x => x ≠ ""),
       ((l.filterMap (fun e => pyFloat? (pyStripWs e))).get? 0).map PyNum.float,
       ((l.filterMap (fun e => pyFloat? (pyStripWs e))).get? 1).map PyNum.float) := by
  induction l with
  | nil => rfl
  | cons x xs ih =>
    obtain ⟨hxmin, hxmax⟩ := h x (List.mem_cons_self x xs)
    have hxs := fun e he => h e (List.mem_cons_of_mem x he)
    by_cases hx0 : x = ""
    · have hxnum : pyFloat? (pyStripWs "") = none := by decide
      rw [show floatLoop (x :: xs) none none = floatLoop xs none none by
        simp [floatLoop, hx0]]
      rw [ih hxs]
      simp [List.filter_cons, List.filterMap_cons, hx0, hxnum]
    · cases hnum : pyFloat? (pyStripWs x) with
      | some n =>
        simp only [floatLoop, if_neg hx0, hnum, Option.map_some', Option.isNone_some,
          Bool.false_and, if_neg (by simp : ¬ (false = true)), Option.isNone_none,
          Bool.true_and, hxmax]
        rw [floatLoop_minSet xs _ (fun e he => (hxs e he).2)]
        simp [List.filter_cons, List.filterMap_cons, hx0, hnum]
      | none =>
        simp only [floatLoop, if_neg hx0, hnum, Option.map_none', Option.isNone_none,
          Bool.true_and, hxmin, if_neg (by simp : ¬ (false = true)), hxmax]
        rw [ih hxs]
        simp [List.filter_cons, List.filterMap_cons, hx0, hnum]

/-- C1: the three canonical scans of the claim, with integer semantics in
the integer branch and float semantics in the float branch; and in general,
for argument lists free of `min` / `max` keyword fragments, the first two
arguments that parse as numbers land positionally in `minimum` then
`maximum` (in both the integer/string loop and the float loop). -/
theorem claim_C1 :
    (configspecParser (.str "integer(min=-7, max=9)") []).minimum = some (.int (-7)) ∧
    (configspecParser (.str "integer(min=-7, max=9)") []).maximum = some (.int 9) ∧
    (configspecParser (.str optionSpecExample) []).string_list = ["mm", "in"] ∧
    (configspecParser (.str "float(0, 360)") []).minimum = some (.float 0) ∧
    (configspecParser (.str "float(0, 360)") []).maximum = some (.float 360) ∧
    (∀ l : List String,
      (∀ e ∈ l, strContains (pyStripWs e) "min" = false ∧
        strContains (pyStripWs e) "max" = false) →
      intStrLoop l none none =
        (l.filter (fun x => x ≠ ""),
         ((l.filterMap (fun e => pyInt? (pyStripWs e))).get? 0).map PyNum.int,
         ((l.filterMap (fun e => pyInt? (pyStripWs e))).get? 1).map PyNum.int)) ∧
    (∀ l : List String,
      (∀ e ∈ l, strContains (pyStripWs e) "min" = false ∧
        strContains (pyStripWs e) "max" = false) →
      floatLoop l none none =
        (l.filter (fun x => x ≠ ""),
         ((l.filterMap (fun e => pyFloat? (pyStripWs e))).get? 0).map PyNum.float,
         ((l.filterMap (fun e => pyFloat? (pyStripWs e))).get? 1).map PyNum.float)) := by
  exact ⟨by decide, by decide, by decide, by decide, by decide,
         intStrLoop_positional, floatLoop_positional⟩

/-- C1 witness: the positional components applied to concrete keyword-free
argument lists (`integer(0, 100)` and `float(0, 360)` argument lists). -/
theorem claim_C1_witness :
    intStrLoop ["0", " 100"] none none = (["0", " 100"], some (.int 0), some (.int 100)) ∧
    floatLoop ["0", " 360"] none none = (["0", " 360"], some (.float 0), some (.float 360)) := by
  constructor
  · have h := claim_C1.2.2.2.2.2.1 ["0", " 100"] ?_
    · rw [h]; decide
    · intro e he
      rcases List.mem_cons.mp he with rfl | he2
      · exact ⟨by decide, by decide⟩
      · rw [List.mem_singleton] at he2
        subst he2
        exact ⟨by decide, by decide⟩
  · have h := claim_C1.2.2.2.2.2.2 ["0", " 360"] ?_
    · rw [h]; decide
    · intro e he
      rcases List.mem_cons.mp he with rfl | he2
      · exact ⟨by decide, by decide⟩
      · rw [List.mem_singleton] at he2
        subst he2
        exact ⟨by decide, by decide⟩

/-! ## Claim C6: validation traversal -/

theorem strConcat_append (l1 l2 : List String) :
    strConcat (l1 ++ l2) = strConcat l1 ++ strConcat l2 := by
  induction l1 with
  | nil => rfl
  | cons s rest ih => simp [strConcat, ih, strAppend_assoc]

theorem validateConfiguration_eq {W : Type} (ops : WidgetOps W) (wd : WinDef W) :
    ∀ (s : String) (b : Bool),
      validateConfiguration ops wd s b =
        ((b && (collectLeaves wd).all (fun w => (ops.validateValue w).1)),
         s ++ strConcat ((collectLeaves wd).map (fun w => (ops.validateValue w).2))) := by
  induction wd with
  | widget w => intro s b; simp [validateConfiguration, collectLeaves, strConcat, strAppend_empty]
  | other => intro s b; simp [validateConfiguration, collectLeaves, strConcat, strAppend_empty]
  | nil => intro s b; simp [validateConfiguration, collectLeaves, strConcat, strAppend_empty]
  | cons key node rest ihn ihr =>
    intro s b
    by_cases hkey : key = "__section_title__"
    · cases node with
      | widget w =>
        rw [show validateConfiguration ops (.cons key (.widget w) rest) s b =
            validateConfiguration ops rest
              (if key = "__section_title__" then (b, s)
               else ((if (ops.validateValue w).1 = false then false else b),
                     s ++ (ops.validateValue w).2)).2
              (if key = "__section_title__" then (b, s)
               else ((if (ops.validateValue w).1 = false then false else b),
                     s ++ (ops.validateValue w).2)).1 from rfl,
            if_pos hkey, ihr]
        simp [collectLeaves, if_pos hkey]
      | other =>
        rw [show validateConfiguration ops (.cons key .other rest) s b =
            validateConfiguration ops rest
              (if key = "__section_title__" then (b, s) else (b, s)).2
              (if key = "__section_title__" then (b, s) else (b, s)).1 from rfl,
            if_pos hkey, ihr]
        simp [collectLeaves, if_pos hkey]
      | nil =>
        rw [show validateConfiguration ops (.cons key .nil rest) s b =
            validateConfiguration ops rest
              (if key = "__section_title__" then (b, s) else (b, s)).2
              (if key = "__section_title__" then (b, s) else (b, s)).1 from rfl,
            if_pos hkey, ihr]
        simp [collectLeaves, if_pos hkey]
      | cons k2 n2 r2 =>
        rw [show validateConfiguration ops (.cons key (.cons k2 n2 r2) rest) s b =
            validateConfiguration ops rest
              (if key = "__section_title__" then (b, s)
               else validateConfiguration ops (.cons k2 n2 r2) s b).2
              (if key = "__section_title__" then (b, s)
               else validateConfiguration ops (.cons k2 n2 r2) s b).1 from rfl,
            if_pos hkey, ihr]
        simp [collectLeaves, if_pos hkey]
    · cases node with
      | widget w =>
        rw [show validateConfiguration ops (.cons key (.widget w) rest) s b =
            validateConfiguration ops rest
              (if key = "__section_title__" then (b, s)
               else ((if (ops.validateValue w).1 = false then false else b),
                     s ++ (ops.validateValue w).2)).2
              (if key = "__section_title__" then (b, s)
               else ((if (ops.validateValue w).1 = false then false else b),
                     s ++ (ops.validateValue w).2)).1 from rfl,
            if_neg hkey, ihr]
        have hb : (if (ops.validateValue w).1 = false then false else b) =
            ((ops.validateValue w).1 && b) := by
          cases hv : (ops.validateValue w).1 <;> simp
        rw [hb]
        simp [collectLeaves, if_neg hkey, strConcat, strAppend_assoc, Bool.and_assoc,
          Bool.and_left_comm, Bool.and_comm]
      | other =>
        rw [show validateConfiguration ops (.cons key .other rest) s b =
            validateConfiguration ops rest
              (if key = "__section_title__" then (b, s) else (b, s)).2
              (if key = "__section_title__" then (b, s) else (b, s)).1 from rfl,
            if_neg hkey, ihr]
        simp [collectLeaves, if_neg hkey]
      | nil =>
        rw [show validateConfiguration ops (.cons key .nil rest) s b =
            validateConfiguration ops rest
              (if key = "__section_title__" then (b, s) else (b, s)).2
              (if key = "__section_title__" then (b, s) else (b, s)).1 from rfl,
            if_neg hkey, ihr]
        simp [collectLeaves, if_neg hkey]
      | cons k2 n2 r2 =>
        rw [show validateConfiguration ops (.cons key (.cons k2 n2 r2) rest) s b =
            validateConfiguration ops rest
              (if key = "__section_title__" then (b, s)
               else validateConfiguration ops (.cons k2 n2 r2) s b).2
              (if key = "__section_title__" then (b, s)
               else validateConfiguration ops (.cons k2 n2 r2) s b).1 from rfl,
            if_neg hkey, ihn, ihr]
        simp [collectLeaves, if_neg hkey, List.all_append, strConcat_append,
          Bool.and_assoc, strAppend_assoc]

set_option maxRecDepth 20000 in
/-- C6: `validateConfiguration` visits the widget leaves in insertion order,
returns the conjunction of all their `validateValue` flags, and returns the
concatenation, in visit order, of all their returned strings; a form with
two invalid leaves reports both messages with a false flag, and a form with
zero invalid leaves reports a true flag and an empty string. -/
theorem claim_C6 :
    (∀ (W : Type) (ops : WidgetOps W) (wd : WinDef W),
      validateConfiguration ops wd "" true =
        ((collectLeaves wd).all (fun w => (ops.validateValue w).1),
         strConcat ((collectLeaves wd).map (fun w => (ops.validateValue w).2)))) ∧
    validateConfiguration lineEditOps wdTwoBad "" true =
      (false, (CfgLineEdit.validateValue leBadA).2 ++ (CfgLineEdit.validateValue leBadB).2) ∧
    strContains (validateConfiguration lineEditOps wdTwoBad "" true).2 "fieldA" = true ∧
    strContains (validateConfiguration lineEditOps wdTwoBad "" true).2 "fieldB" = true ∧
    validateConfiguration lineEditOps wdTwoOk "" true = (true, "") := by
  refine ⟨?_, by decide, by decide, by decide, by decide⟩
  intro Wt ops wd
  have h := validateConfiguration_eq ops wd "" true
  simpa using h

/-! ## Claim C7: Confirm / Apply semantics -/

/-- C7: both Confirm (`accept`) and Apply (`applyChanges`) first validate the
whole window definition; on failure the dialog state — including the
configuration document and the open flag — is completely unchanged; on
success both commit every widget value through `updateConfiguration`, after
which Confirm closes the dialog with the Accepted code while Apply sets the
distinct Applied code (different from both Accepted and Rejected) and leaves
the open flag untouched. -/
theorem claim_C7 {W : Type} (ops : WidgetOps W) (s : DialogState W) :
    ((validateConfiguration ops s.cfg_window_def "" true).1 = false →
      ConfigWindow.accept ops s = s ∧ ConfigWindow.applyChanges ops s = s) ∧
    ((validateConfiguration ops s.cfg_window_def "" true).1 = true →
      ConfigWindow.accept ops s =
        { s with var_dict := updateConfiguration ops s.cfg_window_def s.var_dict,
                 resultCode := QDialogAccepted, isOpen := false } ∧
      ConfigWindow.applyChanges ops s =
        { s with var_dict := updateConfiguration ops s.cfg_window_def s.var_dict,
                 resultCode := ConfigWindowApplied }) ∧
    ConfigWindowApplied ≠ QDialogAccepted ∧
    ConfigWindowApplied ≠ QDialogRejected ∧
    QDialogAccepted ≠ QDialogRejected := by
  refine ⟨?_, ?_, by decide, by decide, by decide⟩
  · intro h
    constructor <;> simp [ConfigWindow.accept, ConfigWindow.applyChanges, h]
  · intro h
    constructor <;> simp [ConfigWindow.accept, ConfigWindow.applyChanges, h]

set_option maxRecDepth 20000 in
/-- C7 witness: on a validating checkbox dialog, Confirm closes with the
Accepted code and Apply sets the Applied code without closing; on a dialog
with two invalid line edits both operations leave the state unchanged. -/
theorem claim_C7_witness :
    (ConfigWindow.accept checkBoxOps dlgOk).resultCode = QDialogAccepted ∧
    (ConfigWindow.accept checkBoxOps dlgOk).isOpen = false ∧
    (ConfigWindow.applyChanges checkBoxOps dlgOk).resultCode = ConfigWindowApplied ∧
    (ConfigWindow.applyChanges checkBoxOps dlgOk).isOpen = true ∧
    ConfigWindow.accept lineEditOps dlgBad = dlgBad ∧
    ConfigWindow.applyChanges lineEditOps dlgBad = dlgBad := by
  have hok : (validateConfiguration checkBoxOps dlgOk.cfg_window_def "" true).1 = true := by
    decide
  have hbad : (validateConfiguration lineEditOps dlgBad.cfg_window_def "" true).1 = false := by
    decide
  obtain ⟨hacc, happ⟩ := (claim_C7 checkBoxOps dlgOk).2.1 hok
  obtain ⟨hacc2, happ2⟩ := (claim_C7 lineEditOps dlgBad).1 hbad
  refine ⟨?_, ?_, ?_, ?_, hacc2, happ2⟩
  · rw [hacc]
  · rw [hacc]
  · rw [happ]
  · rw [happ]
    rfl

/-! ## Claim C8: populate followed by commit -/

theorem svfc_cons_widget_none {W : Type} (ops : WidgetOps W) (key : String) (w : W)
    (rest : WinDef W) (cfg : Value) :
    setValuesFromConfig ops (.cons key (.widget w) rest) (some cfg) none =
      .cons key
        (if key = "__section_title__" then .widget w
         else if pyInV key cfg then .widget (ops.setValue w (cfg.getKey key))
         else .widget w)
        (setValuesFromConfig ops rest (some cfg) none) := rfl

theorem svfc_cons_widget_some {W : Type} (ops : WidgetOps W) (key : String) (w : W)
    (rest : WinDef W) (cfg : Value) (cs : Configspec) :
    setValuesFromConfig ops (.cons key (.widget w) rest) (some cfg) (some cs) =
      .cons key
        (if key = "__section_title__" then .widget w
         else if pyInV key cfg then
           .widget (ops.setValue
             (if cs.hasKey key then
               ops.setSpec w (configspecParser (cs.getKey key) (cs.commentsFor key))
              else w) (cfg.getKey key))
         else .widget w)
        (setValuesFromConfig ops rest (some cfg) (some cs)) := rfl

theorem svfc_cons_other {W : Type} (ops : WidgetOps W) (key : String)
    (rest : WinDef W) (cfg : Value) (spec : Option Configspec) :
    setValuesFromConfig ops (.cons key .other rest) (some cfg) spec =
      .cons key
        (if key = "__section_title__" then .other
         else if pyInV key cfg then .other
         else .other)
        (setValuesFromConfig ops rest (some cfg) spec) := by
  cases spec <;> rfl

theorem svfc_cons_nil {W : Type} (ops : WidgetOps W) (key : String)
    (rest : WinDef W) (cfg : Value) (spec : Option Configspec) :
    setValuesFromConfig ops (.cons key .nil rest) (some cfg) spec =
      .cons key
        (if key = "__section_title__" then .nil
         else if pyInV key cfg then .nil
         else .nil)
        (setValuesFromConfig ops rest (some cfg) spec) := by
  cases spec <;> rfl

theorem svfc_cons_sect_none {W : Type} (ops : WidgetOps W) (key k2 : String)
    (n2 r2 rest : WinDef W) (cfg : Value) :
    setValuesFromConfig ops (.cons key (.cons k2 n2 r2) rest) (some cfg) none =
      .cons key
        (if key = "__section_title__" then .cons k2 n2 r2
         else if pyInV key cfg then
           setValuesFromConfig ops (.cons k2 n2 r2) (some (cfg.getKey key)) none
         else .cons k2 n2 r2)
        (setValuesFromConfig ops rest (some cfg) none) := rfl

theorem svfc_cons_sect_some {W : Type} (ops : WidgetOps W) (key k2 : String)
    (n2 r2 rest : WinDef W) (cfg : Value) (cs : Configspec) :
    setValuesFromConfig ops (.cons key (.cons k2 n2 r2) rest) (some cfg) (some cs) =
      .cons key
        (if key = "__section_title__" then .cons k2 n2 r2
         else if pyInV key cfg then
           setValuesFromConfig ops (.cons k2 n2 r2) (some (cfg.getKey key))
             (if cs.hasKey key then some (cs.getKey key) else none)
         else .cons k2 n2 r2)
        (setValuesFromConfig ops rest (some cfg) (some cs)) := rfl

theorem svfc_cons_shape {W : Type} (ops : WidgetOps W) (key : String) (node rest : WinDef W)
    (cfg : Value) (spec : Option Configspec) :
    ∃ b c0, setValuesFromConfig ops (.cons key node rest) (some cfg) spec =
      WinDef.cons key b c0 := by
  cases node with
  | widget w =>
    cases spec with
    | none => exact ⟨_, _, svfc_cons_widget_none ops key w rest cfg⟩
    | some cs => exact ⟨_, _, svfc_cons_widget_some ops key w rest cfg cs⟩
  | other => exact ⟨_, _, svfc_cons_other ops key rest cfg spec⟩
  | nil => exact ⟨_, _, svfc_cons_nil ops key rest cfg spec⟩
  | cons k2 n2 r2 =>
    cases spec with
    | none => exact ⟨_, _, svfc_cons_sect_none ops key k2 n2 r2 rest cfg⟩
    | some cs => exact ⟨_, _, svfc_cons_sect_some ops key k2 n2 r2 rest cfg cs⟩

theorem updV_cons_widget {W : Type} (ops : WidgetOps W) (key : String) (w : W)
    (rest : WinDef W) (cfg : Value) :
    updateConfigurationV ops (.cons key (.widget w) rest) cfg =
      updateConfigurationV ops rest
        (if key = "__section_title__" then cfg
         else if pyInV key cfg then cfg.setKey key (ops.getValue w)
         else cfg) := rfl

theorem updV_cons_other {W : Type} (ops : WidgetOps W) (key : String)
    (rest : WinDef W) (cfg : Value) :
    updateConfigurationV ops (.cons key .other rest) cfg =
      updateConfigurationV ops rest
        (if key = "__section_title__" then cfg
         else if pyInV key cfg then cfg
         else cfg) := rfl

theorem updV_cons_nil {W : Type} (ops : WidgetOps W) (key : String)
    (rest : WinDef W) (cfg : Value) :
    updateConfigurationV ops (.cons key .nil rest) cfg =
      updateConfigurationV ops rest
        (if key = "__section_title__" then cfg
         else if pyInV key cfg then cfg.setKey key (cfg.getKey key)
         else cfg) := rfl

theorem updV_cons_sect {W : Type} (ops : WidgetOps W) (key k2 : String)
    (n2 r2 rest : WinDef W) (cfg : Value) :
    updateConfigurationV ops (.cons key (.cons k2 n2 r2) rest) cfg =
      updateConfigurationV ops rest
        (if key = "__section_title__" then cfg
         else if pyInV key cfg then
           cfg.setKey key (updateConfigurationV ops (.cons k2 n2 r2) (cfg.getKey key))
         else cfg) := rfl

theorem mapReplace_id_of_not_mem (c : List (String × Value)) (k : String) (v : Value)
    (h : k ∉ c.map Prod.fst) :
    c.map (fun p => if p.1 = k then (k, v) else p) = c := by
  induction c with
  | nil => rfl
  | cons p t ih =>
    rw [List.map_cons, List.mem_cons] at h
    push_neg at h
    rw [List.map_cons, if_neg (fun he => h.1 he.symm), ih h.2]

theorem mapReplace_eq_self (c : List (String × Value)) (k : String) (v : Value)
    (hnodup : (c.map Prod.fst).Nodup) (hlk : c.lookup k = some v) :
    c.map (fun p => if p.1 = k then (k, v) else p) = c := by
  induction c with
  | nil => simp [List.lookup] at hlk
  | cons p t ih =>
    obtain ⟨k1, v1⟩ := p
    rw [List.map_cons, List.nodup_cons] at hnodup
    by_cases hk : k1 = k
    · subst hk
      have hbeq : (k1 == k1) = true := beq_self_eq_true k1
      rw [List.lookup, hbeq] at hlk
      simp only [Option.some.injEq] at hlk
      subst hlk
      rw [List.map_cons, if_pos rfl,
        mapReplace_id_of_not_mem t k1 v1 hnodup.1]
    · have hbeq : (k == k1) = false := beq_eq_false_iff_ne.mpr (fun he => hk he.symm)
      rw [List.lookup, hbeq] at hlk
      rw [List.map_cons, if_neg hk, ih hnodup.2 hlk]

theorem Compat_rest {W : Type} {key : String} {node rest : WinDef W} {v : Value}
    (h : Compat (.cons key node rest) v) : Compat rest v := by
  cases h with
  | intro _ c hnodup hsub =>
    exact Compat.intro rest c hnodup (fun k n vv hmem hsect hk hlk =>
      hsub k n vv (List.mem_cons_of_mem _ hmem) hsect hk hlk)

/-- C8 amended: populate (`setValuesFromConfig`) followed immediately by
commit (`updateConfiguration`) leaves the configuration document unchanged
for every widget family whose leaves reproduce exactly the value they were
given (`getValue` after `setValue`, with or without a prior `setSpec`,
returns that value), on every shape-compatible window definition and
configuration.  (The unamended claim is refuted by `claim_C8_counterexample`:
a checkbox leaf rewrites the stored boolean `True` as the integer `1`.) -/
theorem claim_C8 {W : Type} (ops : WidgetOps W)
    (hset : ∀ w v, ops.getValue (ops.setValue w v) = v)
    (hsetspec : ∀ w r v, ops.getValue (ops.setValue (ops.setSpec w r) v) = v)
    (wd : WinDef W) (cfg : Value) (spec : Option Configspec) (hcompat : Compat wd cfg) :
    updateConfiguration ops (setValuesFromConfig ops wd (some cfg) spec) (some cfg) =
      some cfg := by
  have main : ∀ (wd2 : WinDef W) (cfg2 : Value) (spec2 : Option Configspec),
      Compat wd2 cfg2 →
      updateConfigurationV ops (setValuesFromConfig ops wd2 (some cfg2) spec2) cfg2 = cfg2 := by
    intro wd2
    induction wd2 with
    | widget w => intro cfg2 spec2 h; cases spec2 <;> rfl
    | other => intro cfg2 spec2 h; cases spec2 <;> rfl
    | nil => intro cfg2 spec2 h; cases spec2 <;> rfl
    | cons key node rest ihn ihr =>
      intro cfg2 spec2 h
      have hrest : Compat rest cfg2 := Compat_rest h
      cases h with
      | intro _ c hnodup hsub =>
        by_cases hkey : key = "__section_title__"
        · cases node with
          | widget w =>
            cases spec2 with
            | none =>
              rw [svfc_cons_widget_none, if_pos hkey, updV_cons_widget, if_pos hkey]
              exact ihr _ none hrest
            | some cs =>
              rw [svfc_cons_widget_some, if_pos hkey, updV_cons_widget, if_pos hkey]
              exact ihr _ (some cs) hrest
          | other =>
            rw [svfc_cons_other, if_pos hkey, updV_cons_other, if_pos hkey]
            exact ihr _ spec2 hrest
          | nil =>
            rw [svfc_cons_nil, if_pos hkey, updV_cons_nil, if_pos hkey]
            exact ihr _ spec2 hrest
          | cons k2 n2 r2 =>
            cases spec2 with
            | none =>
              rw [svfc_cons_sect_none, if_pos hkey, updV_cons_sect, if_pos hkey]
              exact ihr _ none hrest
            | some cs =>
              rw [svfc_cons_sect_some, if_pos hkey, updV_cons_sect, if_pos hkey]
              exact ihr _ (some cs) hrest
        · by_cases hin : pyInV key (Value.dict c) = true
          · obtain ⟨v, hv⟩ : ∃ v, c.lookup key = some v := by
              simpa [pyInV, Option.isSome_iff_exists] using hin
            have hget : (Value.dict c).getKey key = v := by simp [Value.getKey, hv]
            have hsetk : (Value.dict c).setKey key v = Value.dict c := by
              simp only [Value.setKey]
              rw [mapReplace_eq_self c key v hnodup hv]
            cases node with
            | widget w =>
              cases spec2 with
              | none =>
                rw [svfc_cons_widget_none, if_neg hkey, if_pos hin, updV_cons_widget,
                  if_neg hkey, if_pos hin, hget, hset, hsetk]
                exact ihr _ none hrest
              | some cs =>
                by_cases hcs : cs.hasKey key = true
                · rw [svfc_cons_widget_some, if_neg hkey, if_pos hin, if_pos hcs,
                    updV_cons_widget, if_neg hkey, if_pos hin, hget, hsetspec, hsetk]
                  exact ihr _ (some cs) hrest
                · rw [svfc_cons_widget_some, if_neg hkey, if_pos hin, if_neg hcs,
                    updV_cons_widget, if_neg hkey, if_pos hin, hget, hset, hsetk]
                  exact ihr _ (some cs) hrest
            | other =>
              rw [svfc_cons_other, if_neg hkey, if_pos hin, updV_cons_other,
                if_neg hkey, if_pos hin]
              exact ihr _ spec2 hrest
            | nil =>
              rw [svfc_cons_nil, if_neg hkey, if_pos hin, updV_cons_nil,
                if_neg hkey, if_pos hin, hget, hsetk]
              exact ihr _ spec2 hrest
            | cons k2 n2 r2 =>
              have hcomp : Compat (WinDef.cons k2 n2 r2) v :=
                hsub key (.cons k2 n2 r2) v (List.mem_cons_self _ _) trivial hkey hv
              cases spec2 with
              | none =>
                rw [svfc_cons_sect_none, if_neg hkey, if_pos hin, hget]
                obtain ⟨b, c0, heq⟩ := svfc_cons_shape ops k2 n2 r2 v none
                rw [heq, updV_cons_sect, if_neg hkey, if_pos hin, hget, ← heq,
                  ihn v none hcomp, hsetk]
                exact ihr _ none hrest
              | some cs =>
                rw [svfc_cons_sect_some, if_neg hkey, if_pos hin, hget]
                obtain ⟨b, c0, heq⟩ := svfc_cons_shape ops k2 n2 r2 v
                  (if cs.hasKey key then some (cs.getKey key) else none)
                rw [heq, updV_cons_sect, if_neg hkey, if_pos hin, hget, ← heq,
                  ihn v _ hcomp, hsetk]
                exact ihr _ (some cs) hrest
          · cases node with
            | widget w =>
              cases spec2 with
              | none =>
                rw [svfc_cons_widget_none, if_neg hkey, if_neg hin, updV_cons_widget,
                  if_neg hkey, if_neg hin]
                exact ihr _ none hrest
              | some cs =>
                rw [svfc_cons_widget_some, if_neg hkey, if_neg hin, updV_cons_widget,
                  if_neg hkey, if_neg hin]
                exact ihr _ (some cs) hrest
            | other =>
              rw [svfc_cons_other, if_neg hkey, if_neg hin, updV_cons_other,
                if_neg hkey, if_neg hin]
              exact ihr _ spec2 hrest
            | nil =>
              rw [svfc_cons_nil, if_neg hkey, if_neg hin, updV_cons_nil,
                if_neg hkey, if_neg hin]
              exact ihr _ spec2 hrest
            | cons k2 n2 r2 =>
              cases spec2 with
              | none =>
                rw [svfc_cons_sect_none, if_neg hkey, if_neg hin, updV_cons_sect,
                  if_neg hkey, if_neg hin]
                exact ihr _ none hrest
              | some cs =>
                rw [svfc_cons_sect_some, if_neg hkey, if_neg hin, updV_cons_sect,
                  if_neg hkey, if_neg hin]
                exact ihr _ (some cs) hrest
  simp [updateConfiguration, main wd cfg spec hcompat]

/-- C8 counterexample: a window with one checkbox leaf whose configuration
entry stores the boolean `True`.  Populate stores the value as the Checked
state and commit writes back the integer `1`, so the round trip changes the
document (`True` becomes `1`, a different type and written representation),
refuting byte-for-byte preservation as claimed. -/
theorem claim_C8_counterexample :
    updateConfiguration checkBoxOps
        (setValuesFromConfig checkBoxOps wdCheckBox (some cfgBoolTrue) none)
        (some cfgBoolTrue) ≠ some cfgBoolTrue := by
  rw [show updateConfiguration checkBoxOps
      (setValuesFromConfig checkBoxOps wdCheckBox (some cfgBoolTrue) none)
      (some cfgBoolTrue) = some (Value.dict [("a", Value.int 1)]) from rfl]
  simp [cfgBoolTrue]

/-- C8 witness: the round-trip theorem applied to a value-faithful widget,
a one-leaf window and a concrete one-entry configuration. -/
theorem claim_C8_witness :
    updateConfiguration idOps (setValuesFromConfig idOps wdId (some cfgId) none) (some cfgId) =
      some cfgId := by
  refine claim_C8 idOps (fun w v => rfl) (fun w r v => rfl) wdId cfgId none ?_
  refine Compat.intro _ _ (by decide) ?_
  intro k n v hmem hsect hk hlk
  simp [wdId, WinDef.entries] at hmem
  obtain ⟨rfl, rfl⟩ := hmem
  simp [WinDef.isSection] at hsect

/-! ## Claim C9: tool-parameters table validation -/

theorem strData_append (a b : String) : (a ++ b).data = a.data ++ b.data := by
  cases a
  cases b
  rfl

theorem strContains_of_data (s sub : String) (pre post : List Char)
    (hdata : s.data = pre ++ (sub.data ++ post)) : strContains s sub = true := by
  show (subFindAux sub.data s.data).isSome = true
  rw [hdata]
  exact subFindAux_append_isSome _ _ _

theorem toolRowsScan_eq (label : String) :
    ∀ (l : List (Option Int)) (i : Nat) (rb : Bool) (rs : String) (c1 : Bool)
      (ks : List String),
      toolRowsScan label i l rb rs c1 ks =
        (rb && l.all Option.isSome,
         rs ++ toolScanMsgs label i l,
         c1 || l.any (fun c => c == some 1),
         ks ++ l.filterMap (fun c => c.map toString)) := by
  intro l
  induction l with
  | nil => intro i rb rs c1 ks; simp [toolRowsScan, toolScanMsgs, strAppend_empty]
  | cons c rest ih =>
    intro i rb rs c1 ks
    cases c with
    | none =>
      rw [show toolRowsScan label i (none :: rest) rb rs c1 ks =
          toolRowsScan label (i + 1) rest false
            (rs ++ "\nThe cell at line " ++ toString i ++
              ", column 0 must not be empty for the table \"" ++ label ++ "\"\n") c1 ks
          from rfl]
      rw [ih]
      simp [toolScanMsgs, strAppend_assoc]
    | some v =>
      rw [show toolRowsScan label i (some v :: rest) rb rs c1 ks =
          toolRowsScan label (i + 1) rest rb rs (c1 || (v == 1)) (ks ++ [toString v])
          from rfl]
      rw [ih]
      simp [toolScanMsgs, Bool.or_assoc, List.append_assoc]

theorem toolStage1_dup (t : CfgTableToolParameters)
    (hguard : 0 < t.col0.length ∧ 0 < t.columnCount)
    (hnb : (toolKeysList t).length - distinctCount (toolKeysList t) ≠ 0) :
    toolValidateStage1 t =
      (false,
       toolScanMsgs t.label 0 t.col0 ++ "\nFound " ++
         toString ((toolKeysList t).length - distinctCount (toolKeysList t)) ++
         " duplicate elements for the table \"" ++ t.label ++ "\"\n",
       t.col0.any (fun c => c == some 1)) := by
  unfold toolValidateStage1
  rw [toolRowsScan_eq, if_pos hguard]
  rw [show ([] : List String) ++ t.col0.filterMap (fun c => c.map toString) = toolKeysList t
    from rfl]
  rw [if_pos hnb]
  rfl

theorem toolStage1_c1_false (t : CfgTableToolParameters)
    (hany : t.col0.any (fun c => c == some 1) = false) :
    (toolValidateStage1 t).2.2 = false := by
  unfold toolValidateStage1
  by_cases hguard : 0 < t.col0.length ∧ 0 < t.columnCount
  · rw [toolRowsScan_eq, if_pos hguard]
    split
    · simp [hany]
    · simp [hany]
  · rw [if_neg hguard]

/-- C9: the tool-parameters table's validation fails with a message naming
the number of duplicate elements whenever two or more rows share the same
column-0 key (on a table that has a key column), and fails with the
"must always contains tool number 1" message whenever no row holds the
value 1 — regardless of the rest of the table, including the zero-row
table. -/
theorem claim_C9 (t : CfgTableToolParameters) :
    ((0 < t.columnCount →
      distinctCount (toolKeysList t) < (toolKeysList t).length →
      (t.validateValue).1 = false ∧
      strContains (t.validateValue).2
        ("\nFound " ++ toString ((toolKeysList t).length - distinctCount (toolKeysList t)) ++
         " duplicate elements for the table \"" ++ t.label ++ "\"\n") = true)) ∧
    ((∀ c ∈ t.col0, c ≠ some 1) →
      (t.validateValue).1 = false ∧
      strContains (t.validateValue).2
        ("\nThe table \"" ++ t.label ++ "\" must always contains tool number " ++
         singleQuote ++ "1" ++ singleQuote ++ "\n") = true) := by
  constructor
  · intro hcols hdup
    have hks : toolKeysList t ≠ [] := by
      intro he
      rw [he] at hdup
      simp [distinctCount] at hdup
    have hrow : 0 < t.col0.length := by
      cases hc : t.col0 with
      | nil =>
        refine absurd ?_ hks
        rw [toolKeysList, hc]
        rfl
      | cons a b => simp
    have hnb : (toolKeysList t).length - distinctCount (toolKeysList t) ≠ 0 := by omega
    have hst := toolStage1_dup t ⟨hrow, hcols⟩ hnb
    unfold CfgTableToolParameters.validateValue
    rw [hst]
    by_cases hc1 : t.col0.any (fun c => c == some 1) = true
    · rw [if_neg (show ¬ ((!(false, toolScanMsgs t.label 0 t.col0 ++ "\nFound " ++
          toString ((toolKeysList t).length - distinctCount (toolKeysList t)) ++
          " duplicate elements for the table \"" ++ t.label ++ "\"\n",
          t.col0.any (fun c => c == some 1)).2.2) = true) by
        simp [hc1])]
      refine ⟨rfl, strContains_of_data _ _ (toolScanMsgs t.label 0 t.col0).data [] ?_⟩
      simp [strData_append, List.append_assoc]
    · simp only [Bool.not_eq_true] at hc1
      rw [if_pos (show (!(false, toolScanMsgs t.label 0 t.col0 ++ "\nFound " ++
          toString ((toolKeysList t).length - distinctCount (toolKeysList t)) ++
          " duplicate elements for the table \"" ++ t.label ++ "\"\n",
          t.col0.any (fun c => c == some 1)).2.2) = true by
        simp [hc1])]
      refine ⟨rfl, strContains_of_data _ _ (toolScanMsgs t.label 0 t.col0).data
        ("\nThe table \"" ++ t.label ++ "\" must always contains tool number " ++
         singleQuote ++ "1" ++ singleQuote ++ "\n").data ?_⟩
      simp [strData_append, List.append_assoc]
  · intro h1
    have hany : t.col0.any (fun c => c == some 1) = false := by
      rw [List.any_eq_false]
      intro c hc
      simp only [beq_iff_eq]
      exact h1 c hc
    have hc1 := toolStage1_c1_false t hany
    unfold CfgTableToolParameters.validateValue
    rw [if_pos (show (!(toolValidateStage1 t).2.2) = true by simp [hc1])]
    refine ⟨rfl, strContains_of_data _ _ (toolValidateStage1 t).2.1.data [] ?_⟩
    simp [strData_append, List.append_assoc]

set_option maxRecDepth 20000 in
/-- C9 witness: a table with two rows both keyed 2 (and so no tool 1)
triggers both the duplicate-count message and the missing-tool-1 message. -/
theorem claim_C9_witness :
    (0 < toolTableDup.columnCount ∧
     distinctCount (toolKeysList toolTableDup) < (toolKeysList toolTableDup).length ∧
     (∀ c ∈ toolTableDup.col0, c ≠ some 1)) ∧
    (toolTableDup.validateValue).1 = false ∧
    strContains (toolTableDup.validateValue).2
      ("\nFound " ++ toString ((toolKeysList toolTableDup).length -
        distinctCount (toolKeysList toolTableDup)) ++
       " duplicate elements for the table \"" ++ toolTableDup.label ++ "\"\n") = true ∧
    strContains (toolTableDup.validateValue).2
      ("\nThe table \"" ++ toolTableDup.label ++ "\" must always contains tool number " ++
       singleQuote ++ "1" ++ singleQuote ++ "\n") = true := by
  have hc : ∀ c ∈ toolTableDup.col0, c ≠ some 1 := by decide
  obtain ⟨h1, h2⟩ := (claim_C9 toolTableDup).1 (by decide) (by decide)
  obtain ⟨h3, h4⟩ := (claim_C9 toolTableDup).2 hc
  exact ⟨⟨by decide, by decide, hc⟩, h1, h2, h4⟩

/-! ## Claim C10: CfgTable.setValue -/

theorem mem_insertOrd (le : α → α → Bool) (a x : α) :
    ∀ l : List α, x ∈ insertOrd le a l ↔ x = a ∨ x ∈ l := by
  intro l
  induction l with
  | nil => simp [insertOrd]
  | cons b bs ih =>
    by_cases h : le a b = true
    · simp [insertOrd, h, List.mem_cons]
    · simp only [insertOrd, h, Bool.false_eq_true, if_false, List.mem_cons, ih]
      tauto

theorem perm_insertOrd (le : α → α → Bool) (a : α) :
    ∀ l : List α, (insertOrd le a l).Perm (a :: l) := by
  intro l
  induction l with
  | nil => exact List.Perm.refl _
  | cons b bs ih =>
    by_cases h : le a b = true
    · rw [insertOrd, if_pos h]
    · rw [insertOrd, if_neg h]
      exact (ih.cons b).trans (List.Perm.swap a b bs)

theorem perm_isortBy (le : α → α → Bool) :
    ∀ l : List α, (isortBy le l).Perm l := by
  intro l
  induction l with
  | nil => exact List.Perm.refl _
  | cons a as ih =>
    exact (perm_insertOrd le a (isortBy le as)).trans (ih.cons a)

theorem pairwise_insertOrd (le : α → α → Bool)
    (htot : ∀ a b, le a b = false → le b a = true)
    (htrans : ∀ a b c, le a b = true → le b c = true → le a c = true) :
    ∀ (l : List α) (a : α), l.Pairwise (fun x y => le x y = true) →
      (insertOrd le a l).Pairwise (fun x y => le x y = true) := by
  intro l
  induction l with
  | nil => intro a _; simp [insertOrd]
  | cons b bs ih =>
    intro a hp
    obtain ⟨hb, hbs⟩ := List.pairwise_cons.mp hp
    by_cases h : le a b = true
    · rw [insertOrd, if_pos h]
      refine List.pairwise_cons.mpr ⟨?_, hp⟩
      intro y hy
      rcases List.mem_cons.mp hy with rfl | hy2
      · exact h
      · exact htrans a b y h (hb y hy2)
    · rw [insertOrd, if_neg h]
      refine List.pairwise_cons.mpr ⟨?_, ih a hbs⟩
      intro y hy
      rcases (mem_insertOrd le a y (bs)).mp hy with rfl | hy2
      · exact htot _ _ (by simpa using h)
      · exact hb y hy2

theorem pairwise_isortBy (le : α → α → Bool)
    (htot : ∀ a b, le a b = false → le b a = true)
    (htrans : ∀ a b c, le a b = true → le b c = true → le a c = true) :
    ∀ l : List α, (isortBy le l).Pairwise (fun x y => le x y = true) := by
  intro l
  induction l with
  | nil => simp [isortBy]
  | cons a as ih => exact pairwise_insertOrd le htot htrans (isortBy le as) a ih

theorem keyFloatLe_total (a b : String) (h : keyFloatLe a b = false) : keyFloatLe b a = true := by
  simp only [keyFloatLe, decide_eq_false_iff_not] at h
  simp only [keyFloatLe, decide_eq_true_eq]
  exact le_of_not_le h

theorem keyFloatLe_trans (a b c : String) (h1 : keyFloatLe a b = true)
    (h2 : keyFloatLe b c = true) : keyFloatLe a c = true := by
  simp only [keyFloatLe, decide_eq_true_eq] at h1 h2 ⊢
  exact le_trans h1 h2

theorem listLexLe_total : ∀ a b : List Char, listLexLe a b = false → listLexLe b a = true := by
  intro a
  induction a with
  | nil => intro b h; simp [listLexLe] at h
  | cons x xs ih =>
    intro b h
    cases b with
    | nil => simp [listLexLe]
    | cons y ys =>
      by_cases h1 : x.toNat < y.toNat
      · simp [listLexLe, h1] at h
      · by_cases h2 : y.toNat < x.toNat
        · simp [listLexLe, h2]
        · simp only [listLexLe, if_neg h1, if_neg h2] at h
          simp only [listLexLe, if_neg h2, if_neg h1]
          exact ih ys h

theorem listLexLe_trans : ∀ a b c : List Char,
    listLexLe a b = true → listLexLe b c = true → listLexLe a c = true := by
  intro a
  induction a with
  | nil => intro b c _ _; rfl
  | cons x xs ih =>
    intro b c h1 h2
    cases b with
    | nil => simp [listLexLe] at h1
    | cons y ys =>
      cases c with
      | nil => simp [listLexLe] at h2
      | cons z zs =>
        by_cases hxy : x.toNat < y.toNat
        · have hyz : y.toNat ≤ z.toNat := by
            by_cases hzy : z.toNat < y.toNat
            · simp [listLexLe, hzy, show ¬ y.toNat < z.toNat by omega] at h2
            · omega
          simp [listLexLe, show x.toNat < z.toNat by omega]
        · by_cases hyx : y.toNat < x.toNat
          · simp [listLexLe, hxy, hyx] at h1
          · simp only [listLexLe, if_neg hxy, if_neg hyx] at h1
            by_cases hyz : y.toNat < z.toNat
            · simp [listLexLe, show x.toNat < z.toNat by omega]
            · by_cases hzy : z.toNat < y.toNat
              · simp [listLexLe, hzy, if_neg hyz] at h2
              · simp only [listLexLe, if_neg hyz, if_neg hzy] at h2
                simp only [listLexLe, if_neg (show ¬ x.toNat < z.toNat by omega),
                  if_neg (show ¬ z.toNat < x.toNat by omega)]
                exact ih ys zs h1 h2

theorem pyStrLe_total (a b : String) (h : pyStrLe a b = false) : pyStrLe b a = true :=
  listLexLe_total a.data b.data h

theorem pyStrLe_trans (a b c : String) (h1 : pyStrLe a b = true) (h2 : pyStrLe b c = true) :
    pyStrLe a c = true :=
  listLexLe_trans a.data b.data c.data h1 h2

theorem innerLookupLoop_complete (inner : Value) :
    ∀ cs : List String, (innerLookupLoop inner cs).isSome = true →
      innerLookupLoop inner cs = some (cs.map (fun c => inner.getKey c)) := by
  intro cs
  induction cs with
  | nil => intro _; rfl
  | cons c rest ih =>
    intro h
    by_cases hin : pyInV c inner = true
    · cases hrec : innerLookupLoop inner rest with
      | some vs =>
        have h2 := ih (by rw [hrec]; rfl)
        rw [hrec] at h2
        simp only [Option.some.injEq] at h2
        subst h2
        simp [innerLookupLoop, hin, hrec]
      | none =>
        rw [show innerLookupLoop inner (c :: rest) =
            (if pyInV c inner then
              match innerLookupLoop inner rest with
              | some vs => some (inner.getKey c :: vs)
              | none => none
             else none) from rfl, if_pos hin, hrec] at h
        simp at h
    · rw [show innerLookupLoop inner (c :: rest) =
          (if pyInV c inner then
            match innerLookupLoop inner rest with
            | some vs => some (inner.getKey c :: vs)
            | none => none
           else none) from rfl, if_neg hin] at h
      simp at h

theorem setValueRows_false (cols : List String) (entries : List (String × Value)) :
    ∀ (items : List String) (acc : List (List Value)),
      setValueRows cols entries items false acc = (false, acc) := by
  intro items
  induction items with
  | nil => intro acc; rfl
  | cons item rest ih =>
    intro acc
    cases h : innerLookupLoop ((entries.lookup item).getD (.str "")) cols.tail with
    | some vs => simp [setValueRows, h, ih]
    | none => simp [setValueRows, h, ih]

theorem setValueRows_true (cols : List String) (entries : List (String × Value)) :
    ∀ (items : List String) (acc : List (List Value)),
      setValueRows cols entries items true acc =
        (items.all (rowComplete cols entries),
         acc ++ (items.takeWhile (rowComplete cols entries)).map (builtRow cols entries)) := by
  intro items
  induction items with
  | nil => intro acc; simp [setValueRows]
  | cons item rest ih =>
    intro acc
    cases h : innerLookupLoop ((entries.lookup item).getD (.str "")) cols.tail with
    | some vs =>
      have hcomp : rowComplete cols entries item = true := by
        simp [rowComplete, tableInner, h]
      have hvs : vs = cols.tail.map (fun c => ((entries.lookup item).getD (.str "")).getKey c) := by
        have h2 := innerLookupLoop_complete ((entries.lookup item).getD (.str "")) cols.tail
          (by rw [h]; rfl)
        rw [h] at h2
        simpa using h2
      simp only [setValueRows, h, if_pos rfl]
      rw [ih]
      simp [hcomp, builtRow, tableInner, hvs, List.append_assoc]
    | none =>
      have hcomp : rowComplete cols entries item = false := by
        simp [rowComplete, tableInner, h]
      simp only [setValueRows, h]
      rw [setValueRows_false]
      simp [hcomp]

theorem cfgTableSetValue_dict (t : CfgTable) (entries : List (String × Value))
    (hk : 0 < t.keys.length) :
    t.setValue (.dict entries) =
      ((setValueRows t.keys entries (pySortedKeys (entries.map Prod.fst)) true []).1,
       { t with rows :=
          (setValueRows t.keys entries (pySortedKeys (entries.map Prod.fst)) true []).2 }) := by
  rw [show t.setValue (.dict entries) =
      (if 0 < t.keys.length then
        ((setValueRows t.keys entries (pySortedKeys (entries.map Prod.fst)) true []).1,
         { t with rows :=
            (setValueRows t.keys entries (pySortedKeys (entries.map Prod.fst)) true []).2 })
       else (false, t)) from rfl, if_pos hk]

/-- C10: for a dict value and a non-empty column list, `setValue` clears the
table, sorts the keys (numerically when every key parses as a float — a sort
that is a permutation ordered by `keyFloatLe` — and lexicographically
otherwise), appends one row per key until the first row whose inner dict
lacks a column, returns whether no row was incomplete, and silently drops
the rows after the first incomplete one; a non-dict value or an empty column
list returns `False` leaving the rows untouched. -/
theorem claim_C10 :
    (∀ (t : CfgTable) (entries : List (String × Value)),
      (∀ p ∈ entries, ∃ d, p.2 = Value.dict d) → 0 < t.keys.length →
      t.setValue (.dict entries) =
        ((pySortedKeys (entries.map Prod.fst)).all (rowComplete t.keys entries),
         { t with rows := ((pySortedKeys (entries.map Prod.fst)).takeWhile
             (rowComplete t.keys entries)).map (builtRow t.keys entries) })) ∧
    (∀ ks : List String, (pySortedKeys ks).Perm ks) ∧
    (∀ ks : List String, (∀ k ∈ ks, (pyFloat? k).isSome = true) →
      pySortedKeys ks = isortBy keyFloatLe ks ∧
      (isortBy keyFloatLe ks).Pairwise (fun a b => keyFloatLe a b = true)) ∧
    (∀ ks : List String, ¬ (∀ k ∈ ks, (pyFloat? k).isSome = true) →
      pySortedKeys ks = isortBy pyStrLe ks ∧
      (isortBy pyStrLe ks).Pairwise (fun a b => pyStrLe a b = true)) ∧
    (∀ (t : CfgTable) (n : Int), t.setValue (.int n) = (false, t)) ∧
    (∀ (t : CfgTable) (s : String), t.setValue (.str s) = (false, t)) ∧
    (∀ (t : CfgTable) (entries : List (String × Value)), t.keys = [] →
      t.setValue (.dict entries) = (false, t)) := by
  refine ⟨?_, ?_, ?_, ?_, ?_, ?_, ?_⟩
  · intro t entries _hinner hk
    rw [cfgTableSetValue_dict t entries hk, setValueRows_true]
    simp
  · intro ks
    unfold pySortedKeys
    split
    · exact perm_isortBy keyFloatLe ks
    · exact perm_isortBy pyStrLe ks
  · intro ks hall
    have hc : ks.all (fun k => (pyFloat? k).isSome) = true := by
      rw [List.all_eq_true]
      exact hall
    constructor
    · unfold pySortedKeys
      rw [if_pos hc]
    · exact pairwise_isortBy keyFloatLe keyFloatLe_total keyFloatLe_trans ks
  · intro ks hall
    have hc : ¬ ks.all (fun k => (pyFloat? k).isSome) = true := by
      rw [List.all_eq_true]
      exact hall
    constructor
    · unfold pySortedKeys
      rw [if_neg hc]
    · exact pairwise_isortBy pyStrLe pyStrLe_total pyStrLe_trans ks
  · intro t n; rfl
  · intro t s; rfl
  · intro t entries hke
    rw [show t.setValue (.dict entries) =
        (if 0 < t.keys.length then
          ((setValueRows t.keys entries (pySortedKeys (entries.map Prod.fst)) true []).1,
           { t with rows :=
              (setValueRows t.keys entries (pySortedKeys (entries.map Prod.fst)) true []).2 })
         else (false, t)) from rfl,
      if_neg (show ¬ 0 < t.keys.length by rw [hke]; simp)]

/-- C10 witness: a three-column table receiving a two-row dict with numeric
keys 15 and 2 appends the rows in numeric order (2 before 15), returning
success, and a plain string value is rejected without touching the rows. -/
theorem claim_C10_witness :
    (∀ p ∈ [("15", Value.dict [("diameter", Value.float 1.5), ("speed", Value.float 6000)]),
            ("2", Value.dict [("diameter", Value.float 2), ("speed", Value.float 6000)])],
      ∃ d, p.2 = Value.dict d) ∧
    demoTable.setValue demoTableValue =
      (true, { demoTable with rows :=
        [[Value.str "2", Value.float 2, Value.float 6000],
         [Value.str "15", Value.float 1.5, Value.float 6000]] }) ∧
    demoTable.setValue (.str "x") = (false, demoTable) := by
  have hinner : ∀ p ∈ [("15", Value.dict [("diameter", Value.float 1.5),
        ("speed", Value.float 6000)]),
      ("2", Value.dict [("diameter", Value.float 2), ("speed", Value.float 6000)])],
      ∃ d, p.2 = Value.dict d := by
    intro p hp
    rcases List.mem_cons.mp hp with rfl | hp2
    · exact ⟨_, rfl⟩
    · rw [List.mem_singleton] at hp2
      subst hp2
      exact ⟨_, rfl⟩
  refine ⟨hinner, ?_, claim_C10.2.2.2.2.2.1 demoTable "x"⟩
  have h := claim_C10.1 demoTable
    [("15", Value.dict [("diameter", Value.float 1.5), ("speed", Value.float 6000)]),
     ("2", Value.dict [("diameter", Value.float 2), ("speed", Value.float 6000)])]
    hinner (by decide)
  rw [show demoTableValue = Value.dict
    [("15", Value.dict [("diameter", Value.float 1.5), ("speed", Value.float 6000)]),
     ("2", Value.dict [("diameter", Value.float 2), ("speed", Value.float 6000)])] from rfl]
  rw [h]
  rfl
